import Mathlib

/-!
Shallow embedding of `netlify/functions/ask.js`: the dialogue controller of a
serverless medical-question handler.  JavaScript strings are modelled as Lean
`String` (operated on through their character lists), regular-expression tests
are modelled by explicit scanners that follow the source patterns (including
`\b` word boundaries over the JS `\w = [A-Za-z0-9_]` class), and the handler's
post-moderation phase is modelled as a pure function of the two upstream call
results.
-/

/-- JS `\w` word-character class `[A-Za-z0-9_]`, used by `\b` boundaries. -/
def isWordChar (c : Char) : Bool :=
  ('a' ≤ c && c ≤ 'z') || ('A' ≤ c && c ≤ 'Z') || ('0' ≤ c && c ≤ '9') || c = '_'

/-- JS `\d` digit class. -/
def isDigitChar (c : Char) : Bool :=
  '0' ≤ c && c ≤ '9'

/-- JS `\s` whitespace class (the members relevant to this code base). -/
def isJsSpace (c : Char) : Bool :=
  c = ' ' || c = '\t' || c = '\n' || c = '\r' || c = '\x0b' || c = '\x0c' || c = '\u00A0'

/-- Word-ness of the character to the left of a scan position; the start of the
string counts as non-word, so a `\b` holds there before a word character. -/
def isWordHead (cs : List Char) : Bool :=
  match cs with
  | [] => false
  | c :: _ => isWordChar c

/-- JS `String.prototype.trim` on a character list. -/
def jsTrimList (l : List Char) : List Char :=
  ((l.dropWhile isJsSpace).reverse.dropWhile isJsSpace).reverse

/-- JS `String.prototype.trim`. -/
def jsTrimStr (s : String) : String :=
  String.mk (jsTrimList s.data)

/-- JS `Array.prototype.join` with a separator. -/
def jsJoin (sep : String) : List String → String
  | [] => ""
  | [s] => s
  | s :: rest => s ++ sep ++ jsJoin sep rest

/-- JS truthiness test `(!x || !x.trim())` for an optional string field:
true when the field is missing, empty, or whitespace-only. -/
def jsBlank (o : Option String) : Bool :=
  match o with
  | none => true
  | some s => decide (jsTrimList s.data = [])

/-- JS `x || d` for an optional string against a string default. -/
def jsOrStr (o : Option String) (d : String) : String :=
  match o with
  | none => d
  | some s => if s = "" then d else s

/-- Number of digit characters in a list. -/
def countDigits (l : List Char) : Nat :=
  (l.filter isDigitChar).length

/-- `l.slice(-n)` in JS: the last `n` elements (all of them when fewer). -/
def lastN (n : Nat) (l : List α) : List α :=
  l.drop (l.length - n)

-- ### History Normalizer (`normalizeHistory`, ask.js lines 26–32)

/-- One conversation turn as the normalizer emits it. -/
structure Turn where
  role : String
  content : String
deriving DecidableEq, Repr

/-- An element of the caller-supplied raw history array.  `falsy` stands for a
JS-falsy element (skipped by the `t &&` guard); `obj` carries the `role` and
`content` fields with `none` meaning the field is missing or not a string. -/
inductive RawEntry where
  | falsy : RawEntry
  | obj (role : Option String) (content : Option String) : RawEntry
deriving DecidableEq, Repr

/-- The raw `history` value from the request body: either not an array at all,
or an array of raw entries. -/
inductive RawHistoryVal where
  | notArray : RawHistoryVal
  | arr (l : List RawEntry) : RawHistoryVal
deriving DecidableEq, Repr

/-- The filter of `normalizeHistory`:
`t && (t.role === "user" || t.role === "assistant") && typeof t.content === "string"`. -/
def isWellFormedTurn : RawEntry → Bool
  | .falsy => false
  | .obj r c => (r = some "user" || r = some "assistant") && c.isSome

/-- The map of `normalizeHistory`: `{ role: t.role, content: t.content.slice(0, 800) }`. -/
def entryToTurn : RawEntry → Turn
  | .falsy => ⟨"", ""⟩
  | .obj r c => ⟨r.getD "", String.mk ((c.getD "").data.take 800)⟩

/-- `normalizeHistory` (ask.js lines 26–32). -/
def normalizeHistory : RawHistoryVal → List Turn
  | .notArray => []
  | .arr l => lastN 12 (((l.filter isWellFormedTurn).map entryToTurn))

-- ### Backend caller with 429 backoff (`callOpenAIWithBackoff`, ask.js lines 11–23)

/-- An upstream HTTP response: its status code and (abstract) body. -/
structure UpstreamResp where
  status : Nat
  body : String
deriving DecidableEq, Repr

/-- The retry loop of `callOpenAIWithBackoff`: `i` is the attempt index,
`remaining` the attempts left, `wait` the current backoff delay, `last` the
last rate-limited response seen, `waits` the sleeps performed so far.  A
non-429 response is returned at once; a 429 is remembered, slept on, and the
delay doubled. -/
def backoffGo (responses : Nat → UpstreamResp) :
    Nat → Nat → Nat → Option UpstreamResp → List Nat → Option UpstreamResp × List Nat
  | _, 0, _, last, waits => (last, waits)
  | i, r + 1, wait, _, waits =>
    let res := responses i
    if res.status ≠ 429 then (some res, waits)
    else backoffGo responses (i + 1) r (wait * 2) (some res) (waits ++ [wait])

/-- `callOpenAIWithBackoff` (ask.js lines 11–23), abstracting the upstream as a
function from attempt index to response.  Returns the chosen response together
with the list of backoff sleeps performed (in milliseconds: 1000, 2000, …). -/
def callOpenAIWithBackoff (responses : Nat → UpstreamResp) (tries : Nat) :
    Option UpstreamResp × List Nat :=
  backoffGo responses 0 tries 1000 none []

-- ### Literal pattern matching with word boundaries

/-- Case-insensitive literal prefix stripping: if lower-casing `cs` begins with
the (lowercase) pattern, return the remainder. -/
def ciPrefixRem : List Char → List Char → Option (List Char)
  | [], cs => some cs
  | _ :: _, [] => none
  | p :: ps, c :: cs => if c.toLower = p then ciPrefixRem ps cs else none

/-- One literal alternative of a regex: an optional leading `\b`, the literal
characters (lowercase), and an optional trailing `\b`. -/
structure LitPat where
  lb : Bool
  lit : List Char
  rb : Bool
deriving DecidableEq, Repr

/-- Does `p` match at the head of `cs`, where `prevWord` is the word-ness of
the character before the scan position?  A `\b` holds where word-ness changes. -/
def litMatchAt (p : LitPat) (prevWord : Bool) (cs : List Char) : Bool :=
  match ciPrefixRem p.lit cs with
  | none => false
  | some rest =>
    (!p.lb || (prevWord != isWordHead p.lit)) &&
    (!p.rb || (isWordChar (p.lit.getLastD '?') != isWordHead rest))

/-- Does some pattern of `pats` match anywhere in `cs` (scanning left to
right, tracking the previous character's word-ness)? -/
def containsPats (pats : List LitPat) : Bool → List Char → Bool
  | _, [] => false
  | prevWord, c :: rest =>
    pats.any (fun p => litMatchAt p prevWord (c :: rest)) ||
      containsPats pats (isWordChar c) rest

-- ### Topic inference (`inferTopic`, ask.js lines 35–47)

/-- `/\bhair\s*loss/`: `\b`, literal `hair`, any whitespace, literal `loss`. -/
def hairLossAt (prevWord : Bool) (cs : List Char) : Bool :=
  (!prevWord) &&
    (match ciPrefixRem "hair".data cs with
     | none => false
     | some rest => (ciPrefixRem "loss".data (rest.dropWhile isJsSpace)).isSome)

/-- Does `/\bhair\s*loss/` match anywhere in `cs`? -/
def containsHairLoss : Bool → List Char → Bool
  | _, [] => false
  | prevWord, c :: rest =>
    hairLossAt prevWord (c :: rest) || containsHairLoss (isWordChar c) rest

/-- Build the classification text: all history contents joined by spaces, a
space, the new message, lower-cased (`inferTopic`, ask.js line 36). -/
def topicText (userText : String) (history : List Turn) : List Char :=
  ((jsJoin " " (history.map Turn.content) ++ " " ++ userText).data).map Char.toLower

/-- `/\buric|urate|gout\b/` (alternation binds loosely across the whole regex). -/
def ruleLabTest (t : List Char) : Bool :=
  containsPats [⟨true, "uric".data, false⟩, ⟨false, "urate".data, false⟩,
    ⟨false, "gout".data, true⟩] false t

/-- `/(tablet|pill|capsule|dose|vitamin|supplement|medicine|medication)\b/`. -/
def ruleVitaminMed (t : List Char) : Bool :=
  containsPats (["tablet", "pill", "capsule", "dose", "vitamin", "supplement",
    "medicine", "medication"].map (fun w => ⟨false, w.data, true⟩)) false t

/-- `/\b(rash|itch|hives|urticaria|spots?)\b/`. -/
def ruleRash (t : List Char) : Bool :=
  containsPats (["rash", "itch", "hives", "urticaria", "spots", "spot"].map
    (fun w => ⟨true, w.data, true⟩)) false t

/-- `/\b(headache|head ache|migraine)\b/`. -/
def ruleHeadache (t : List Char) : Bool :=
  containsPats (["headache", "head ache", "migraine"].map
    (fun w => ⟨true, w.data, true⟩)) false t

/-- `/\b(stomach|tummy|belly|abd(omen|ominal)|epigastr)\b/`. -/
def ruleAbdominal (t : List Char) : Bool :=
  containsPats (["stomach", "tummy", "belly", "abdomen", "abdominal",
    "epigastr"].map (fun w => ⟨true, w.data, true⟩)) false t

/-- `/\b(height|tall|short|growth|stature|small for age|grow taller)\b/`. -/
def ruleGrowth (t : List Char) : Bool :=
  containsPats (["height", "tall", "short", "growth", "stature",
    "small for age", "grow taller"].map (fun w => ⟨true, w.data, true⟩)) false t

/-- `/\b(chest pain|breathless|shortness of breath|wheeze|asthma)\b/`. -/
def ruleCardioResp (t : List Char) : Bool :=
  containsPats (["chest pain", "breathless", "shortness of breath", "wheeze",
    "asthma"].map (fun w => ⟨true, w.data, true⟩)) false t

/-- `/\bpregnan|pregnancy|pregnant|breastfeed|lactat/i`. -/
def rulePregnancy (t : List Char) : Bool :=
  containsPats [⟨true, "pregnan".data, false⟩, ⟨false, "pregnancy".data, false⟩,
    ⟨false, "pregnant".data, false⟩, ⟨false, "breastfeed".data, false⟩,
    ⟨false, "lactat".data, false⟩] false t

/-- `/\bhair\s*loss|shedding\b/.test(txt) && /\bfatigue|tired\b/.test(txt)`. -/
def ruleFatigueHair (t : List Char) : Bool :=
  (containsHairLoss false t || containsPats [⟨false, "shedding".data, true⟩] false t) &&
    containsPats [⟨true, "fatigue".data, false⟩, ⟨false, "tired".data, true⟩] false t

/-- `inferTopic` (ask.js lines 35–47): the ordered if-chain of category rules. -/
def inferTopic (userText : String) (history : List Turn) : String :=
  let txt := topicText userText history
  if ruleLabTest txt then "lab_test"
  else if ruleVitaminMed txt then "vitamin_or_med"
  else if ruleRash txt then "symptom_rash"
  else if ruleHeadache txt then "symptom_headache"
  else if ruleAbdominal txt then "symptom_abdominal"
  else if ruleGrowth txt then "growth_development"
  else if ruleCardioResp txt then "symptom_cardioresp"
  else if rulePregnancy txt then "pregnancy_related"
  else if ruleFatigueHair txt then "fatigue_hair"
  else "other"

/-- The ordered rule table of `inferTopic`, as the spec describes it. -/
def topicRules : List ((List Char → Bool) × String) :=
  [(ruleLabTest, "lab_test"), (ruleVitaminMed, "vitamin_or_med"),
   (ruleRash, "symptom_rash"), (ruleHeadache, "symptom_headache"),
   (ruleAbdominal, "symptom_abdominal"), (ruleGrowth, "growth_development"),
   (ruleCardioResp, "symptom_cardioresp"), (rulePregnancy, "pregnancy_related"),
   (ruleFatigueHair, "fatigue_hair")]

/-- First matching rule's label, `"other"` when none matches (spec wording). -/
def firstMatchLabel (t : List Char) : String :=
  ((topicRules.find? (fun r => r.1 t)).map Prod.snd).getD "other"

-- ### Fallback question bank (`fallbackQuestion`, ask.js lines 66–112)

/-- `FRIENDLY_OPENER` (ask.js lines 7–8). -/
def FRIENDLY_OPENER : String :=
  "Just a reminder: I’m not a substitute for a clinician, so I can’t give specific medical advice. I can outline common causes, what clinicians often check, and practical things people sometimes do while waiting to be seen."

/-- The per-topic question bank `Q` of `fallbackQuestion`; lookup falls back to
the `other` entry (`Q[topic] || Q.other`). -/
def questionBank (topic : String) : List String :=
  if topic = "vitamin_or_med" then
    ["What’s the exact product and dose, and why are you taking it?",
     "How long have you been using it, and any side effects so far?"]
  else if topic = "lab_test" then
    ["Which test are you asking about and what was the number and unit (if you know)?",
     "Why was the test ordered, and have you had red, hot, very painful joints?"]
  else if topic = "symptom_headache" then
    ["When did the headache start—sudden or gradual?",
     "How severe is it (0–10), and any nausea or light sensitivity?"]
  else if topic = "symptom_abdominal" then
    ["When did the tummy pain start—sudden or gradual?",
     "Where is it (upper/lower/central/right/left), and how severe is it (0–10)?"]
  else if topic = "symptom_rash" then
    ["When did the rash start, and where on your body is it?",
     "Is it itchy, painful, or spreading, and do you have a fever?"]
  else if topic = "symptom_cardioresp" then
    ["When did the chest or breathing symptom start—sudden or gradual?",
     "What makes it better or worse (rest, activity, cold air, lying down)?"]
  else if topic = "growth_development" then
    ["How tall are you now, and roughly how much have you grown in the last 6–12 months?",
     "Have you started puberty changes yet (e.g., growth spurt, periods, voice change)? If you know, what are your parents’ heights?"]
  else if topic = "pregnancy_related" then
    ["How many weeks pregnant are you, and what symptoms are you noticing?",
     "Any bleeding, severe pain, or reduced baby movements?"]
  else if topic = "fatigue_hair" then
    ["Are your periods heavy or irregular, and have you had recent illness, stress, or big weight change?",
     "Do you follow a vegetarian/vegan diet or take any thyroid/iron-related medicines?"]
  else
    ["When did this start—sudden or gradual?",
     "How severe is it (0–10), and what makes it better or worse?"]

/-- `fallbackQuestion(step, userText, topic)` (ask.js lines 66–112): pick the
bank entry at `min(step, arr.length - 1)` and make sure it ends with `?`.
`userText` is accepted but unused, as in the source. -/
def fallbackQuestion (step : Nat) (userText : String) (topic : String) : String :=
  let arr := questionBank topic
  let s := arr.getD (Nat.min step (arr.length - 1)) ""
  let _ := userText
  if s.data.getLastD ' ' = '?' then s else s ++ "?"

/-- `topicAllowsPainScale` (ask.js lines 115–117). -/
def topicAllowsPainScale (topic : String) : Bool :=
  ["symptom_headache", "symptom_abdominal", "symptom_cardioresp", "symptom_rash",
   "other"].contains topic

-- ### Intake repair (`enforceOneQuestion`, ask.js lines 196–207)

/-- Match of `/0\s*(?:–|-|to)\s*10/` at the head of `cs`. -/
def scalePatAt (cs : List Char) : Bool :=
  match cs with
  | '0' :: rest =>
    let r1 := rest.dropWhile isJsSpace
    let sep : Option (List Char) :=
      match r1 with
      | '–' :: r => some r
      | '-' :: r => some r
      | 't' :: 'o' :: r => some r
      | _ => none
    (match sep with
     | none => false
     | some r2 =>
       match r2.dropWhile isJsSpace with
       | '1' :: '0' :: _ => true
       | _ => false)
  | _ => false

/-- `/0\s*(?:–|-|to)\s*10/.test(q)`: scan every position. -/
def containsScalePat : List Char → Bool
  | [] => false
  | c :: rest => scalePatAt (c :: rest) || containsScalePat rest

/-- `mentionsScale` in `enforceOneQuestion`:
`/0\s*(?:–|-|to)\s*10/.test(q) || /\b0-10\b/.test(q)`. -/
def mentionsScale (q : String) : Bool :=
  containsScalePat q.data || containsPats [⟨true, "0-10".data, true⟩] false q.data

-- ### Parsed backend output (the JSON object the model returns)

/-- The parsed structured response.  The schema is sent with `strict: false`,
so every field may be missing (`none`); `JSON.parse` can also deliver stage
strings outside the declared enum. -/
structure ParsedOut where
  stage : Option String := none
  topic_type : Option String := none
  disclaimer : Option String := none
  chat_reply : Option String := none
  advice_text : Option String := none
  summary : Option String := none
  info_gaps : Option (List String) := none
  urgent_triggers : Option (List String) := none
  final_reminder : Option String := none
  ask_back : Option String := none
deriving DecidableEq, Repr

/-- Truncation at the first question mark, inclusive: the effect of
`const qm = q.indexOf("?"); if (qm !== -1) q = q.slice(0, qm + 1);`. -/
def truncAtFirstQ : List Char → List Char
  | [] => []
  | c :: rest => if c = '?' then [c] else c :: truncAtFirstQ rest

/-- The replacement condition of `enforceOneQuestion` (ask.js line 201):
`(!q || !q.endsWith("?")) || (mentionsScale && !topicAllowsPainScale(topic))`. -/
def enforceBad (q1 : String) (topic : String) : Bool :=
  (decide (q1.data = []) || decide (q1.data.getLastD ' ' ≠ '?')) ||
    (mentionsScale q1 && !topicAllowsPainScale topic)

/-- `enforceOneQuestion(o, step, userText, topic)` (ask.js lines 196–207):
trim the reply, truncate at the first `?`, replace it by the fallback bank
entry when empty, not ending in `?`, or mentioning a 0–10 scale for a topic
that does not allow one; clear `ask_back`. -/
def enforceOneQuestion (o : ParsedOut) (step : Nat) (userText : String)
    (topic : String) : ParsedOut :=
  let q0 := jsTrimStr (o.chat_reply.getD "")
  let q1 := String.mk (truncAtFirstQ q0.data)
  let q2 :=
    if enforceBad q1 topic then fallbackQuestion step userText topic else q1
  { o with chat_reply := some q2, ask_back := some "" }

-- ### Advice sanitation (`sanitizeAdvice`, ask.js lines 120–140)

/-- The replacement text of the dosing pass. -/
def doseRepl : List Char := "a doctor-directed dose".data

/-- The unit alternatives of `/(mg|mcg|g|ml|units?|%|mcL|mL|IU)/i`, in the
order the regex tries them (`units?` expands greedily to `units`, `unit`). -/
def unitAlts : List (List Char) :=
  ["mg", "mcg", "g", "ml", "units", "unit", "%", "mcl", "ml", "iu"].map String.data

/-- Try the unit alternatives in order at the head of `cs`; on success return
the remainder and the word-ness of the unit's final character, provided the
trailing `\b` holds. -/
def tryUnitList : List (List Char) → List Char → Option (List Char × Bool)
  | [], _ => none
  | pat :: pats, cs =>
    match ciPrefixRem pat cs with
    | some rest =>
      let lw := isWordChar (pat.getLastD '?')
      if lw != isWordHead rest then some (rest, lw) else tryUnitList pats cs
    | none => tryUnitList pats cs

/-- Match of `/\b\d+\s?(mg|mcg|g|ml|units?|%|mcL|mL|IU)\b/i` at the head of
`cs` (`prevWord` is the word-ness of the previous character).  On success
returns the remaining input and the word-ness of the last matched character. -/
def matchDosing (prevWord : Bool) (cs : List Char) : Option (List Char × Bool) :=
  match cs with
  | [] => none
  | c :: rest =>
    if prevWord then none
    else if !isDigitChar c then none
    else
      match rest.dropWhile isDigitChar with
      | [] => none
      | e :: rest2 =>
        if isJsSpace e then tryUnitList unitAlts rest2
        else tryUnitList unitAlts (e :: rest2)

/-- The global-replace scan of the dosing pass, with explicit fuel (one unit
per emitted chunk; `fuel = cs.length` suffices since every step consumes at
least one input character). -/
def stripDoseAux : Nat → Bool → List Char → List Char
  | 0, _, cs => cs
  | fuel + 1, prevWord, cs =>
    match cs with
    | [] => []
    | c :: rest =>
      match matchDosing prevWord (c :: rest) with
      | some (rem, lw) => doseRepl ++ stripDoseAux fuel lw rem
      | none => c :: stripDoseAux fuel (isWordChar c) rest

/-- Pass 1 of `sanitizeAdvice` (ask.js line 124): replace bounded
number-plus-unit dosing patterns with "a doctor-directed dose". -/
def stripDoseUnits (cs : List Char) : List Char :=
  stripDoseAux cs.length false cs

/-- `stripDoseAux` at its canonical fuel (the input length). -/
def stripD (b : Bool) (cs : List Char) : List Char :=
  stripDoseAux cs.length b cs

/-- The shape relation between an input and the output of the dosing scan:
the output is the input with some digit-led blocks replaced by `doseRepl`. -/
inductive StripRel : List Char → List Char → Prop
  | nil : StripRel [] []
  | copy (c : Char) {t t' : List Char} : StripRel t t' → StripRel (c :: t) (c :: t')
  | repl {d : Char} {mid rem t' : List Char} : isDigitChar d = true → StripRel rem t' →
      StripRel (d :: (mid ++ rem)) (doseRepl ++ t')

/-- Does `/\b\d+\s?(mg|mcg|g|ml|units?|%|mcL|mL|IU)\b/i` match anywhere in
`cs`, scanning with the word-ness of the previous character? -/
def hasDosingMatch : Bool → List Char → Bool
  | _, [] => false
  | prevWord, c :: rest =>
    (matchDosing prevWord (c :: rest)).isSome || hasDosingMatch (isWordChar c) rest

/-- The time-word alternatives of `(minutes?|hours?|hrs?)`, in regex order. -/
def timeAlts : List (List Char) :=
  ["minutes", "minute", "hours", "hour", "hrs", "hr"].map String.data

/-- The separator group `(\s?–|-| to )` of the pass-2 regex, tried at the
head of `ds` in regex order. -/
def timeRangeSep : List Char → Option (List Char)
  | a :: '–' :: r =>
    if isJsSpace a then some r
    else if a = '–' then some ('–' :: r)
    else if a = '-' then some ('–' :: r)
    else none
  | '–' :: r => some r
  | '-' :: r => some r
  | ds => ciPrefixRem " to ".data ds

/-- The `\d+\s?(unit)\b` tail shared by the timed patterns: a digit run, an
optional single whitespace, then a unit alternative with its trailing `\b`. -/
def numUnitTail (alts : List (List Char)) (r2 : List Char) : Option (List Char × Bool) :=
  match r2 with
  | d2 :: r3 =>
    if isDigitChar d2 then
      match r3.dropWhile isDigitChar with
      | [] => none
      | e :: r4 =>
        if isJsSpace e then tryUnitList alts r4
        else tryUnitList alts (e :: r4)
    else none
  | [] => none

/-- Match of `/\b\d+(\s?–|-| to )\d+\s?(minutes?|hours?|hrs?)\b/i` at the head
of `cs` (pass 2 of `sanitizeAdvice`, ask.js line 126). -/
def matchTimeRange (prevWord : Bool) (cs : List Char) : Option (List Char × Bool) :=
  match cs with
  | [] => none
  | c :: rest =>
    if prevWord then none
    else if !isDigitChar c then none
    else
      match timeRangeSep (rest.dropWhile isDigitChar) with
      | none => none
      | some r2 => numUnitTail timeAlts r2

/-- Match of `/\b\d+\s?(minutes?|hours?|hrs?)\b/i` at the head of `cs`
(pass 3 of `sanitizeAdvice`, ask.js line 127). -/
def matchPlainTime (prevWord : Bool) (cs : List Char) : Option (List Char × Bool) :=
  match cs with
  | [] => none
  | c :: rest =>
    if prevWord then none
    else if !isDigitChar c then none
    else
      match rest.dropWhile isDigitChar with
      | [] => none
      | e :: rest2 =>
        if isJsSpace e then tryUnitList timeAlts rest2
        else tryUnitList timeAlts (e :: rest2)

/-- The counted group `(\d+|one|two|three|four)` of the pass-4 regex at the
head of `cs`: on success, the remainder. -/
def freqCount (cs : List Char) : Option (List Char) :=
  match cs with
  | c :: rest =>
    if isDigitChar c then some (rest.dropWhile isDigitChar)
    else
      match ciPrefixRem "one".data cs with
      | some r => some r
      | none =>
        match ciPrefixRem "two".data cs with
        | some r => some r
        | none =>
          match ciPrefixRem "three".data cs with
          | some r => some r
          | none =>
            match ciPrefixRem "four".data cs with
            | some r => some r
            | none => none
  | [] => none

/-- The `\s?` of the pass-4 regex: consume at most one whitespace. -/
def freqSkipSpace (r1 : List Char) : List Char :=
  match r1 with
  | e :: r => if isJsSpace e then r else r1
  | [] => r1

/-- The `(x|times?)` group of the pass-4 regex at the head of `r2`. -/
def freqTimes (r2 : List Char) : Option (List Char) :=
  match ciPrefixRem "x".data r2 with
  | some r => some r
  | none =>
    match ciPrefixRem "times".data r2 with
    | some r => some r
    | none => ciPrefixRem "time".data r2

/-- Match of `/\b(\d+|one|two|three|four)\s?(x|times?)\/(day|night|week)\b/i`
at the head of `cs` (pass 4 of `sanitizeAdvice`, ask.js line 128). -/
def matchFreq (prevWord : Bool) (cs : List Char) : Option (List Char × Bool) :=
  if prevWord then none
  else
    match freqCount cs with
    | none => none
    | some r1 =>
      match freqTimes (freqSkipSpace r1) with
      | none => none
      | some r3 =>
        match r3 with
        | '/' :: r4 => tryUnitList (["day", "night", "week"].map String.data) r4
        | _ => none

/-- Generic global-replace scan for a `\b`-aware matcher with a fixed
replacement, with fuel as in `stripDoseAux`. -/
def gsubAux (matcher : Bool → List Char → Option (List Char × Bool))
    (repl : List Char) : Nat → Bool → List Char → List Char
  | 0, _, cs => cs
  | fuel + 1, prevWord, cs =>
    match cs with
    | [] => []
    | c :: rest =>
      match matcher prevWord (c :: rest) with
      | some (rem, lw) => repl ++ gsubAux matcher repl fuel lw rem
      | none => c :: gsubAux matcher repl fuel (isWordChar c) rest

/-- Pass 2 of `sanitizeAdvice` (ask.js line 126): timed ranges such as
"15–20 minutes" become "a short time". -/
def stripTimeRanges (cs : List Char) : List Char :=
  gsubAux matchTimeRange "a short time".data cs.length false cs

/-- Pass 3 of `sanitizeAdvice` (ask.js line 127): plain timed amounts such as
"15 minutes" become "a short time". -/
def stripPlainTimes (cs : List Char) : List Char :=
  gsubAux matchPlainTime "a short time".data cs.length false cs

/-- Pass 4 of `sanitizeAdvice` (ask.js line 128): frequencies such as "3x/day"
become "regularly as advised by a clinician". -/
def stripFreqs (cs : List Char) : List Char :=
  gsubAux matchFreq "regularly as advised by a clinician".data cs.length false cs

/-- The imperative verbs of pass 5, lowercase, in regex order. -/
def imperativeVerbs : List (List Char) :=
  ["take", "use", "apply", "start", "stop", "begin", "increase", "decrease",
   "avoid", "ice", "elevate", "rest", "wear", "do"].map String.data

/-- Try the imperative verbs in order at the head of `cs`; on success return
the (lowercase) verb and the remainder, provided the trailing `\b` holds. -/
def tryVerbList : List (List Char) → List Char → Option (List Char × List Char)
  | [], _ => none
  | v :: vs, cs =>
    match ciPrefixRem v cs with
    | some rest =>
      if isWordChar (v.getLastD '?') != isWordHead rest then some (v, rest)
      else tryVerbList vs cs
    | none => tryVerbList vs cs

/-- Match of `\s*[-•]?\s*(Take|Use|…)\b` (the part of the pass-5 regex after
its `(^|\n)` anchor) at the head of `cs`. -/
def matchImperative (cs : List Char) : Option (List Char × List Char) :=
  let t1 := cs.dropWhile isJsSpace
  let t2 := match t1 with
    | c :: r => if c = '-' || c = '•' then r else t1
    | [] => t1
  tryVerbList imperativeVerbs (t2.dropWhile isJsSpace)

/-- The pass-5 replacement for a matched verb:
`` `${pfx}• People sometimes ${verb.toLowerCase()}… (discuss with your clinician)` ``
(the captured prefix is emitted separately by the scanner). -/
def imperativeRepl (verb : List Char) : List Char :=
  "• People sometimes ".data ++ verb ++ "… (discuss with your clinician)".data

/-- Pass 5 scan (ask.js lines 131–132): matches are anchored at the string
start or right after a newline; the newline prefix is preserved. -/
def deImperAux : Nat → Bool → List Char → List Char
  | 0, _, cs => cs
  | fuel + 1, atStart, cs =>
    match cs with
    | [] => []
    | c :: rest =>
      if atStart then
        match matchImperative (c :: rest) with
        | some (verb, rem) => imperativeRepl verb ++ deImperAux fuel false rem
        | none => c :: deImperAux fuel false rest
      else if c = '\n' then
        match matchImperative rest with
        | some (verb, rem) => '\n' :: (imperativeRepl verb ++ deImperAux fuel false rem)
        | none => c :: deImperAux fuel false rest
      else c :: deImperAux fuel false rest

/-- Pass 5 of `sanitizeAdvice`: de-imperativize line-leading directive verbs. -/
def deImperativize (cs : List Char) : List Char :=
  deImperAux (cs.length + 1) true cs

/-- Match of `/\b(you (should|need to|must))\b/i` at the head of `cs`
(pass 6, ask.js line 135). -/
def matchYouShould (prevWord : Bool) (cs : List Char) : Option (List Char × Bool) :=
  if prevWord then none
  else
    match ciPrefixRem "you ".data cs with
    | none => none
    | some r => tryUnitList (["should", "need to", "must"].map String.data) r

/-- Pass 6 of `sanitizeAdvice`: "you should/need to/must" becomes
"it may be worth discussing with your clinician whether you could". -/
def softenYouShould (cs : List Char) : List Char :=
  gsubAux matchYouShould
    "it may be worth discussing with your clinician whether you could".data
    cs.length false cs

/-- Pass 7 of `sanitizeAdvice` (ask.js line 138): `/\n{3,}/g` → `"\n\n"`. -/
def collapseNewlines : Nat → List Char → List Char
  | 0, cs => cs
  | fuel + 1, cs =>
    match cs with
    | [] => []
    | c :: rest =>
      if c = '\n' then
        let run := 1 + (rest.takeWhile (fun d => d = '\n')).length
        if 3 ≤ run then
          '\n' :: '\n' :: collapseNewlines fuel (rest.dropWhile (fun d => d = '\n'))
        else c :: collapseNewlines fuel rest
      else c :: collapseNewlines fuel rest

/-- Pass 7 applied with adequate fuel. -/
def collapseNL (cs : List Char) : List Char :=
  collapseNewlines cs.length cs

/-- `sanitizeAdvice` (ask.js lines 120–140): the seven passes then `trim()`. -/
def sanitizeAdvice (s : String) : String :=
  String.mk (jsTrimList (collapseNL (softenYouShould
    (deImperativize (stripFreqs (stripPlainTimes (stripTimeRanges
      (stripDoseUnits s.data))))))))

-- ### The handler's backend phase (ask.js lines 210–376, after moderation)

/-- `MAX_INTAKE_TURNS` (ask.js line 4). -/
def MAX_INTAKE_TURNS : Nat := 2

/-- The default closing reminder (ask.js lines 335 and 351). -/
def defaultReminder : String :=
  "If symptoms persist, worsen, or you’re unsure, arranging a timely clinic visit with a qualified clinician is sensible."

/-- The urgent-care warning of the safe fallback (ask.js lines 330–332). -/
def urgentWarning : String :=
  "This sounds potentially urgent. If you have severe pain, trouble breathing, fainting, or stroke-like symptoms, please seek urgent care now."

/-- The urgent-care advice text of the safe fallback (ask.js line 333). -/
def urgentAdviceText : String :=
  FRIENDLY_OPENER ++ "\n\nWatch-outs (urgent): chest pain, trouble breathing, one-sided weakness, heavy bleeding, signs of a severe allergic reaction. If these are present, using urgent care or emergency services is sensible."

/-- A parsed payload as `parseOut` can actually deliver it (ask.js lines
303–313): with `strict: false` on the schema the function returns the raw
`JSON.parse` result, so besides a JSON object the handler can receive a
truthy non-object value — a number, a non-empty string, `true`, or an array.
Falsy parses (`null`, `0`, `""`, `false`) fail the `!parsed` truthiness gate
exactly like a parse failure and are modelled as `none` in
`CallResult.parsed`; `nonObj`'s tag records which concrete truthy non-object
value was parsed. -/
inductive ParsedVal where
  | obj (p : ParsedOut)
  | nonObj (tag : String)
deriving DecidableEq, Repr

/-- Reading the `stage` property of a parsed value: on a non-object the read
yields `undefined` (`none`). -/
def ParsedVal.stage : ParsedVal → Option String
  | .obj p => p.stage
  | .nonObj _ => none

/-- Reading `topic_type`: `undefined` on a non-object. -/
def ParsedVal.topic_type : ParsedVal → Option String
  | .obj p => p.topic_type
  | .nonObj _ => none

/-- Reading `chat_reply`: `undefined` on a non-object. -/
def ParsedVal.chat_reply : ParsedVal → Option String
  | .obj p => p.chat_reply
  | .nonObj _ => none

/-- Reading `advice_text`: `undefined` on a non-object. -/
def ParsedVal.advice_text : ParsedVal → Option String
  | .obj p => p.advice_text
  | .nonObj _ => none

/-- Reading `disclaimer`: `undefined` on a non-object. -/
def ParsedVal.disclaimer : ParsedVal → Option String
  | .obj p => p.disclaimer
  | .nonObj _ => none

/-- Reading `final_reminder`: `undefined` on a non-object. -/
def ParsedVal.final_reminder : ParsedVal → Option String
  | .obj p => p.final_reminder
  | .nonObj _ => none

/-- Reading `ask_back`: `undefined` on a non-object. -/
def ParsedVal.ask_back : ParsedVal → Option String
  | .obj p => p.ask_back
  | .nonObj _ => none

/-- Outcome of one `callOnce`: the HTTP success flag and the parsed output
(`none` when the body could not be parsed or parsed to a falsy value). -/
structure CallResult where
  ok : Bool
  parsed : Option ParsedVal
deriving DecidableEq, Repr

/-- `!ok || !parsed || parsed.stage !== "advice"` (ask.js line 320, left). -/
def firstNotAdvice (r : CallResult) : Bool :=
  !r.ok ||
    match r.parsed with
    | none => true
    | some v => decide (v.stage ≠ some "advice")

/-- The forced-second-call condition (ask.js line 320):
`(!ok || !parsed || parsed.stage !== "advice") && (urgentFlag || assistantTurns >= MAX_INTAKE_TURNS)`. -/
def shouldForceAdvice (r : CallResult) (urgentFlag : Bool) (assistantTurns : Nat) : Bool :=
  firstNotAdvice r && (urgentFlag || decide (MAX_INTAKE_TURNS ≤ assistantTurns))

/-- The call result the rest of the handler works with: the second (forced)
call's result exactly when the forcing condition fired. -/
def selectedCall (r1 r2 : CallResult) (urgentFlag : Bool) (assistantTurns : Nat) :
    CallResult :=
  if shouldForceAdvice r1 urgentFlag assistantTurns then r2 else r1

/-- Is a call result usable (`ok` and parsed)? -/
def usableResult (r : CallResult) : Bool :=
  r.ok && r.parsed.isSome

/-- The synthesized safe result (ask.js lines 326–336). -/
def safeResult (urgentFlag : Bool) (assistantTurns : Nat) (topicHint question : String) :
    ParsedOut :=
  let step := Nat.min assistantTurns (MAX_INTAKE_TURNS - 1)
  { stage := some (if urgentFlag then "advice" else "intake"),
    topic_type := some topicHint,
    chat_reply := some (if urgentFlag then urgentWarning
                        else fallbackQuestion step question topicHint),
    advice_text := if urgentFlag then some urgentAdviceText else none,
    disclaimer := some FRIENDLY_OPENER,
    final_reminder := some defaultReminder }

/-- The advice-stage repair (ask.js lines 347–366): overwrite the disclaimer
with the boilerplate opener, sanitize a non-empty advice text, default a blank
closing reminder, and synthesize an advice text when it is missing or shorter
than 40 characters after trimming. -/
def adviceRepair (p : ParsedOut) : ParsedOut :=
  let p1 := { p with disclaimer := some FRIENDLY_OPENER }
  let p2 :=
    match p1.advice_text with
    | some s => if s ≠ "" then { p1 with advice_text := some (sanitizeAdvice s) } else p1
    | none => p1
  let p3 :=
    if jsBlank p2.final_reminder then { p2 with final_reminder := some defaultReminder }
    else p2
  let tooShort :=
    match p3.advice_text with
    | none => true
    | some s => s = "" || decide ((jsTrimList s.data).length < 40)
  if tooShort then
    let watch := (p3.urgent_triggers.getD []).take 5
    let gaps := (p3.info_gaps.getD []).take 3
    let parts : List String :=
      ["Quick take — based on what you shared, here’s a general picture.",
       "Don’t-miss to rule out — a few serious possibilities clinicians consider.",
       "What clinicians often do first — focused history/exam and common labs or scans.",
       if watch ≠ [] then "Watch-outs (urgent): " ++ jsJoin "; " watch else "",
       if gaps ≠ [] then "What to bring/track: " ++ jsJoin "; " gaps else "",
       p3.final_reminder.getD ""]
    let synthesized := sanitizeAdvice (jsJoin "\n\n" (parts.filter (fun s => s ≠ "")))
    { p3 with advice_text := some synthesized }
  else p3

/-- The per-stage repairs (ask.js lines 341–366). -/
def repairParsed (p : ParsedOut) (assistantTurns : Nat) (question topicHint : String) :
    ParsedOut :=
  let p1 :=
    if p.stage = some "intake" then
      enforceOneQuestion p (Nat.min assistantTurns (MAX_INTAKE_TURNS - 1)) question
        (jsOrStr p.topic_type topicHint)
    else p
  if p1.stage = some "advice" then adviceRepair p1 else p1

/-- The final safeguard (ask.js lines 368–373): a blank outbound reply forces
the stage back to `intake` and substitutes the bank question. -/
def finalGuard (p : ParsedOut) (assistantTurns : Nat) (question topicHint : String) :
    ParsedOut :=
  if jsBlank p.chat_reply then
    { p with stage := some "intake",
             chat_reply := some (fallbackQuestion
               (Nat.min assistantTurns (MAX_INTAKE_TURNS - 1)) question
               (jsOrStr p.topic_type topicHint)) }
  else p

/-- The repair passes and the final safeguard as they act on the parsed value.
A JSON object flows through the per-stage repairs and then the final guard.
On a truthy non-object the stage reads (ask.js lines 341 and 347) yield
`undefined` so both repairs are skipped, and although the final safeguard's
condition fires (`parsed.chat_reply` is `undefined`), its property writes
never reach the emitted JSON: on a primitive the assignments are silent no-ops
(the module is not in strict mode), and on an array the named properties are
dropped by `JSON.stringify` — the value is emitted unchanged. -/
def repairVal (v : ParsedVal) (assistantTurns : Nat) (question topicHint : String) :
    ParsedVal :=
  match v with
  | .obj p => .obj (finalGuard (repairParsed p assistantTurns question topicHint)
      assistantTurns question topicHint)
  | .nonObj t => .nonObj t

/-- The handler's JSON response: HTTP status, the `ok` field, the emitted
`result` value, and whether the raw backend payload is attached. -/
structure HttpResponse where
  statusCode : Nat
  okField : Bool
  result : ParsedVal
  rawAttached : Bool
deriving DecidableEq, Repr

/-- The backend phase of the handler (ask.js lines 316–376), as a function of
the first call's result, the second (forced) call's result, the urgency flag,
the assistant-turn count, the topic hint, and the question. -/
def backendPhase (r1 r2 : CallResult) (urgentFlag : Bool) (assistantTurns : Nat)
    (topicHint question : String) : HttpResponse :=
  let r := selectedCall r1 r2 urgentFlag assistantTurns
  if usableResult r then
    { statusCode := 200, okField := true,
      result := repairVal (r.parsed.getD (.obj {})) assistantTurns question topicHint,
      rawAttached := false }
  else
    { statusCode := 200, okField := true,
      result := .obj (safeResult urgentFlag assistantTurns topicHint question),
      rawAttached := true }

-- ### Spec-worded comparison definitions (for refinement-style claims)

/-- The claim's wording of the forced-second-call condition, read literally:
"(the turn count has reached the max-intake threshold and the first attempt
did not already yield an advice-stage result) or urgency was detected". -/
def claimWordedForceAdvice (r : CallResult) (urgentFlag : Bool)
    (assistantTurns : Nat) : Bool :=
  (decide (MAX_INTAKE_TURNS ≤ assistantTurns) && firstNotAdvice r) || urgentFlag

/-- "The first attempt yielded a usable advice-stage result": a successful
status with a parsed payload whose stage is `advice`. -/
def usableAdviceFirst (r : CallResult) : Prop :=
  r.ok = true ∧ ∃ p, r.parsed = some p ∧ p.stage = some "advice"

instance (r : CallResult) : Decidable (usableAdviceFirst r) := by
  unfold usableAdviceFirst
  exact inferInstance

/-- Modelled from the claim's words (C10): "a literal dosing pattern of the
form a number followed by a dose unit" — digits, at most one whitespace, then
one of the unit tokens, with no word-boundary requirement.  Used only to
compare the claim's wording against the source pattern. -/
def claimDosePatternAt (cs : List Char) : Bool :=
  match cs with
  | c :: rest =>
    isDigitChar c &&
      (let ds := rest.dropWhile isDigitChar
       let t := match ds with
         | e :: r => if isJsSpace e then r else ds
         | [] => ds
       unitAlts.any (fun pat => (ciPrefixRem pat t).isSome))
  | [] => false

/-- Does the claim-worded dosing pattern occur anywhere in `cs`? -/
def containsClaimDosePattern : List Char → Bool
  | [] => false
  | c :: rest => claimDosePatternAt (c :: rest) || containsClaimDosePattern rest

-- ## Theorems

-- ### Shared helper lemmas

theorem ensureTrailingQ_getLast (s : String) :
    (if s.data.getLastD ' ' = '?' then s else s ++ "?").data.getLast? = some '?' := by
  split
  · next h =>
    rw [List.getLastD_eq_getLast? ' ' s.data] at h
    cases hg : s.data.getLast? with
    | none => rw [hg] at h; exact absurd h (by decide)
    | some c => rw [hg] at h; simp only [Option.getD_some] at h; rw [h]
  · next _ =>
    rw [String.data_append]
    exact List.getLast?_concat _

theorem fallbackQuestion_getLast (step : Nat) (u t : String) :
    (fallbackQuestion step u t).data.getLast? = some '?' :=
  ensureTrailingQ_getLast _

theorem fallbackQuestion_ne_empty (step : Nat) (u t : String) :
    fallbackQuestion step u t ≠ "" := by
  intro he
  have h := fallbackQuestion_getLast step u t
  rw [he] at h
  exact absurd h (by decide)

theorem truncAtFirstQ_count_le (l : List Char) : (truncAtFirstQ l).count '?' ≤ 1 := by
  induction l with
  | nil => simp [truncAtFirstQ]
  | cons c rest ih =>
    by_cases h : c = '?'
    · simp [truncAtFirstQ, h]
    · simpa [truncAtFirstQ, h, List.count_cons] using ih

theorem enforceOneQuestion_reply_spec (o : ParsedOut) (step : Nat) (u t : String) :
    ∃ q, (enforceOneQuestion o step u t).chat_reply = some q ∧
      q.data.getLast? = some '?' ∧
      (q.data.count '?' ≤ 1 ∨ q = fallbackQuestion step u t) := by
  unfold enforceOneQuestion
  by_cases hcond :
      enforceBad (String.mk (truncAtFirstQ (jsTrimStr (o.chat_reply.getD "")).data)) t = true
  · exact ⟨fallbackQuestion step u t, by simp [hcond], fallbackQuestion_getLast step u t,
      Or.inr rfl⟩
  · rw [Bool.not_eq_true] at hcond
    have hs := hcond
    unfold enforceBad at hs
    simp only [Bool.or_eq_false_iff, Bool.and_eq_false_iff, decide_eq_false_iff_not,
      not_not, Bool.not_eq_false] at hs
    refine ⟨String.mk (truncAtFirstQ (jsTrimStr (o.chat_reply.getD "")).data),
      by simp [hcond], ?_, Or.inl (truncAtFirstQ_count_le _)⟩
    have hlast := hs.1.2
    rw [List.getLastD_eq_getLast? ' ' _] at hlast
    cases hg : (String.mk (truncAtFirstQ (jsTrimStr (o.chat_reply.getD "")).data)).data.getLast?
        with
    | none => rw [hg] at hlast; exact absurd hlast (by decide)
    | some c => rw [hg] at hlast; simp only [Option.getD_some] at hlast; rw [hlast]

theorem enforceOneQuestion_stage (o : ParsedOut) (step : Nat) (u t : String) :
    (enforceOneQuestion o step u t).stage = o.stage := rfl

theorem enforceOneQuestion_ask_back (o : ParsedOut) (step : Nat) (u t : String) :
    (enforceOneQuestion o step u t).ask_back = some "" := rfl

theorem finalGuard_reply_nonempty (p : ParsedOut) (atn : Nat) (q th : String) :
    ∃ s, (finalGuard p atn q th).chat_reply = some s ∧ s ≠ "" := by
  by_cases h : jsBlank p.chat_reply = true
  · refine ⟨fallbackQuestion (Nat.min atn (MAX_INTAKE_TURNS - 1)) q (jsOrStr p.topic_type th),
      ?_, fallbackQuestion_ne_empty _ _ _⟩
    simp [finalGuard, h]
  · rw [Bool.not_eq_true] at h
    have hres : finalGuard p atn q th = p := by
      simp [finalGuard, h]
    rw [hres]
    cases hc : p.chat_reply with
    | none => rw [hc] at h; exact absurd h (by simp [jsBlank])
    | some s =>
      refine ⟨s, rfl, ?_⟩
      intro he
      rw [hc, he] at h
      exact absurd h (by simp [jsBlank, jsTrimList])

/-- When the emitted result is a JSON object, its reply text is never empty:
the synthesized fallback always carries one, and on the usable path the final
safeguard substitutes a bank question into a blank object reply. -/
theorem objResult_reply_nonempty (r1 r2 : CallResult) (u : Bool) (atn : Nat)
    (th q : String) (p : ParsedOut)
    (h : (backendPhase r1 r2 u atn th q).result = .obj p) :
    ∃ s, p.chat_reply = some s ∧ s ≠ "" := by
  unfold backendPhase at h
  dsimp only at h
  by_cases hu : usableResult (selectedCall r1 r2 u atn) = true
  · rw [if_pos hu] at h
    dsimp only at h
    cases hv : (selectedCall r1 r2 u atn).parsed.getD (ParsedVal.obj {}) with
    | obj p0 =>
      rw [hv] at h
      dsimp only [repairVal] at h
      injection h with h
      rw [← h]
      exact finalGuard_reply_nonempty _ _ _ _
    | nonObj t =>
      rw [hv] at h
      dsimp only [repairVal] at h
      exact absurd h (by simp)
  · rw [if_neg hu] at h
    dsimp only at h
    injection h with h
    rw [← h]
    cases u with
    | true => exact ⟨urgentWarning, by simp [safeResult], by decide⟩
    | false =>
      exact ⟨fallbackQuestion (Nat.min atn (MAX_INTAKE_TURNS - 1)) q th,
        by simp [safeResult], fallbackQuestion_ne_empty _ _ _⟩

/-- C1: refuted on the code.  `parseOut` (ask.js lines 303–313) returns the
raw `JSON.parse` result, so a truthy non-object payload — here the number
parsed from the model text `42` — passes the `!ok || !parsed` usability gate
(line 320), skips both per-stage repairs (its `stage` reads are `undefined`),
and the final safeguard's property writes are lost on a non-object (silent
no-ops on a primitive, dropped from an array by `JSON.stringify`): the handler
emits HTTP 200 with `ok: true` and a result that carries no `chat_reply` at
all, contrary to the claim and to the code's own comment above lines 368–373
("Absolute safeguard: never return an empty chat_reply"). -/
theorem c1_nonobject_reply_escape :
    (backendPhase ⟨true, some (.nonObj "42")⟩ ⟨false, none⟩ false 0 "other"
        "my head hurts").statusCode = 200 ∧
    (backendPhase ⟨true, some (.nonObj "42")⟩ ⟨false, none⟩ false 0 "other"
        "my head hurts").okField = true ∧
    (backendPhase ⟨true, some (.nonObj "42")⟩ ⟨false, none⟩ false 0 "other"
        "my head hurts").result = .nonObj "42" ∧
    (backendPhase ⟨true, some (.nonObj "42")⟩ ⟨false, none⟩ false 0 "other"
        "my head hurts").result.chat_reply = none := by
  refine ⟨by decide, by decide, by decide, by decide⟩

-- ### C3: the History Normalizer

/-- C3: the normalizer never fails: a non-array input yields `[]`; otherwise
it returns exactly the last 12 (or fewer) well-formed entries, in original
relative order (a suffix of the filtered list), with each surviving entry's
content truncated to its first 800 characters and its role one of the two
permitted values. -/
theorem c3_normalize_history :
    normalizeHistory .notArray = [] ∧
    (∀ l : List RawEntry,
      normalizeHistory (.arr l) =
        lastN 12 ((l.filter isWellFormedTurn).map entryToTurn) ∧
      (normalizeHistory (.arr l)).length ≤ 12 ∧
      normalizeHistory (.arr l) <:+ (l.filter isWellFormedTurn).map entryToTurn ∧
      (12 ≤ ((l.filter isWellFormedTurn).map entryToTurn).length →
        (normalizeHistory (.arr l)).length = 12) ∧
      (∀ t ∈ normalizeHistory (.arr l),
        (t.role = "user" ∨ t.role = "assistant") ∧ t.content.data.length ≤ 800)) := by
  refine ⟨rfl, fun l => ⟨rfl, ?_, ?_, ?_, ?_⟩⟩
  · show (lastN 12 ((l.filter isWellFormedTurn).map entryToTurn)).length ≤ 12
    unfold lastN
    rw [List.length_drop]
    omega
  · exact List.drop_suffix _ _
  · intro h12
    show (lastN 12 ((l.filter isWellFormedTurn).map entryToTurn)).length = 12
    unfold lastN
    rw [List.length_drop]
    omega
  · intro t ht
    have hmem : t ∈ (l.filter isWellFormedTurn).map entryToTurn :=
      List.drop_subset _ _ ht
    rw [List.mem_map] at hmem
    obtain ⟨e, he, hte⟩ := hmem
    rw [List.mem_filter] at he
    obtain ⟨-, hwf⟩ := he
    cases e with
    | falsy => exact absurd hwf (by simp [isWellFormedTurn])
    | obj r c =>
      unfold isWellFormedTurn at hwf
      rw [Bool.and_eq_true, Bool.or_eq_true] at hwf
      obtain ⟨hrole, -⟩ := hwf
      subst hte
      constructor
      · rcases hrole with h | h <;> rw [decide_eq_true_iff] at h <;> subst h
        · exact Or.inl rfl
        · exact Or.inr rfl
      · show ((c.getD "").data.take 800).length ≤ 800
        rw [List.length_take]
        omega

/-- Witness for C3 at a concrete input: 13 well-formed entries keep the last
12; a role outside the enumeration is discarded. -/
theorem c3_normalize_history_witness :
    normalizeHistory (.arr (List.replicate 13 (.obj (some "user") (some "x")))) =
      lastN 12 (((List.replicate 13 (.obj (some "user") (some "x")) : List RawEntry).filter
        isWellFormedTurn).map entryToTurn) ∧
    (normalizeHistory (.arr (List.replicate 13 (.obj (some "user") (some "x"))))).length = 12 ∧
    (∀ t ∈ normalizeHistory (.arr [.obj (some "system") (some "x"),
        .obj (some "assistant") (some "y")]),
      (t.role = "user" ∨ t.role = "assistant") ∧ t.content.data.length ≤ 800) := by
  refine ⟨(c3_normalize_history.2 _).1, ?_, fun t ht => (c3_normalize_history.2 _).2.2.2.2 t ht⟩
  exact (c3_normalize_history.2 _).2.2.2.1 (by decide)

-- ### C4: the backend caller's retry policy

/-- C4: with 3 attempts, the first non-429 response is returned immediately
(after `k` rate-limited attempts the backoff sleeps were 1000·2^j for j < k),
and when all 3 attempts are rate-limited the last 429 response is returned
as-is after sleeps of 1000, 2000, 4000. -/
theorem c4_backoff_retry (responses : Nat → UpstreamResp) :
    (∀ k, k < 3 → (∀ j, j < k → (responses j).status = 429) →
      (responses k).status ≠ 429 →
      callOpenAIWithBackoff responses 3 =
        (some (responses k), (List.range k).map (fun j => 1000 * 2 ^ j))) ∧
    ((∀ j, j < 3 → (responses j).status = 429) →
      callOpenAIWithBackoff responses 3 = (some (responses 2), [1000, 2000, 4000])) := by
  have e0 : callOpenAIWithBackoff responses 3 =
      (if (responses 0).status ≠ 429 then (some (responses 0), [])
       else backoffGo responses 1 2 2000 (some (responses 0)) [1000]) := rfl
  have e1 : backoffGo responses 1 2 2000 (some (responses 0)) [1000] =
      (if (responses 1).status ≠ 429 then (some (responses 1), [1000])
       else backoffGo responses 2 1 4000 (some (responses 1)) [1000, 2000]) := rfl
  have e2 : backoffGo responses 2 1 4000 (some (responses 1)) [1000, 2000] =
      (if (responses 2).status ≠ 429 then (some (responses 2), [1000, 2000])
       else (some (responses 2), [1000, 2000, 4000])) := rfl
  constructor
  · intro k hk hall hnot
    interval_cases k
    · rw [e0, if_pos hnot]
      simp
    · rw [e0, if_neg (fun hne => hne (hall 0 (by omega))), e1, if_pos hnot]
      norm_num [List.range_succ]
    · rw [e0, if_neg (fun hne => hne (hall 0 (by omega))), e1,
        if_neg (fun hne => hne (hall 1 (by omega))), e2, if_pos hnot]
      norm_num [List.range_succ]
  · intro hall
    rw [e0, if_neg (fun hne => hne (hall 0 (by omega))), e1,
      if_neg (fun hne => hne (hall 1 (by omega))), e2,
      if_neg (fun hne => hne (hall 2 (by omega)))]

/-- Witness for C4 at a concrete upstream: one 429 then a 500 returns the 500
after a single 1000 ms sleep; an all-429 upstream returns the last 429. -/
theorem c4_backoff_retry_witness :
    callOpenAIWithBackoff (fun i => if i = 0 then ⟨429, "a"⟩ else ⟨500, "b"⟩) 3 =
      (some ((fun i => if i = 0 then (⟨429, "a"⟩ : UpstreamResp) else ⟨500, "b"⟩) 1),
        (List.range 1).map (fun j => 1000 * 2 ^ j)) ∧
    callOpenAIWithBackoff (fun _ => ⟨429, "a"⟩) 3 =
      (some ((fun _ => (⟨429, "a"⟩ : UpstreamResp)) 2), [1000, 2000, 4000]) := by
  constructor
  · exact (c4_backoff_retry _).1 1 (by omega)
      (by intro j hj; interval_cases j; rfl) (by decide)
  · exact (c4_backoff_retry _).2 (fun j hj => rfl)

-- ### C5: topic inference is first-match over the ordered rule table

theorem topicChain_spec (txt : List Char) :
    (if ruleLabTest txt then "lab_test"
     else if ruleVitaminMed txt then "vitamin_or_med"
     else if ruleRash txt then "symptom_rash"
     else if ruleHeadache txt then "symptom_headache"
     else if ruleAbdominal txt then "symptom_abdominal"
     else if ruleGrowth txt then "growth_development"
     else if ruleCardioResp txt then "symptom_cardioresp"
     else if rulePregnancy txt then "pregnancy_related"
     else if ruleFatigueHair txt then "fatigue_hair"
     else "other") = firstMatchLabel txt ∧
    ((if ruleLabTest txt then "lab_test"
      else if ruleVitaminMed txt then "vitamin_or_med"
      else if ruleRash txt then "symptom_rash"
      else if ruleHeadache txt then "symptom_headache"
      else if ruleAbdominal txt then "symptom_abdominal"
      else if ruleGrowth txt then "growth_development"
      else if ruleCardioResp txt then "symptom_cardioresp"
      else if rulePregnancy txt then "pregnancy_related"
      else if ruleFatigueHair txt then "fatigue_hair"
      else "other") = "other" ↔ ∀ r ∈ topicRules, r.1 txt = false) := by
  by_cases h1 : ruleLabTest txt
  · constructor <;> simp [firstMatchLabel, topicRules, List.find?, h1]
  · by_cases h2 : ruleVitaminMed txt
    · constructor <;> simp [firstMatchLabel, topicRules, List.find?, h1, h2]
    · by_cases h3 : ruleRash txt
      · constructor <;> simp [firstMatchLabel, topicRules, List.find?, h1, h2, h3]
      · by_cases h4 : ruleHeadache txt
        · constructor <;> simp [firstMatchLabel, topicRules, List.find?, h1, h2, h3, h4]
        · by_cases h5 : ruleAbdominal txt
          · constructor <;> simp [firstMatchLabel, topicRules, List.find?, h1, h2, h3, h4, h5]
          · by_cases h6 : ruleGrowth txt
            · constructor <;>
                simp [firstMatchLabel, topicRules, List.find?, h1, h2, h3, h4, h5, h6]
            · by_cases h7 : ruleCardioResp txt
              · constructor <;>
                  simp [firstMatchLabel, topicRules, List.find?, h1, h2, h3, h4, h5, h6, h7]
              · by_cases h8 : rulePregnancy txt
                · constructor <;>
                    simp [firstMatchLabel, topicRules, List.find?, h1, h2, h3, h4, h5, h6, h7,
                      h8]
                · by_cases h9 : ruleFatigueHair txt
                  · constructor <;>
                      simp [firstMatchLabel, topicRules, List.find?, h1, h2, h3, h4, h5, h6,
                        h7, h8, h9]
                  · constructor <;>
                      simp [firstMatchLabel, topicRules, List.find?, h1, h2, h3, h4, h5, h6,
                        h7, h8, h9]

/-- C5: topic inference concatenates and lower-cases the history and the new
message, and equals the first matching rule of the fixed ordered table,
returning `other` exactly when no rule matches. -/
theorem c5_topic_first_match (u : String) (hist : List Turn) :
    inferTopic u hist = firstMatchLabel (topicText u hist) ∧
    (inferTopic u hist = "other" ↔
      ∀ r ∈ topicRules, r.1 (topicText u hist) = false) :=
  topicChain_spec (topicText u hist)

/-- Witness for C5 at a concrete input: text containing both rash and headache
vocabulary resolves to the earlier-ordered rash rule. -/
theorem c5_topic_first_match_witness :
    (inferTopic "I have a rash and a headache" [] =
      firstMatchLabel (topicText "I have a rash and a headache" []) ∧
    (inferTopic "I have a rash and a headache" [] = "other" ↔
      ∀ r ∈ topicRules, r.1 (topicText "I have a rash and a headache" []) = false)) ∧
    inferTopic "I have a rash and a headache" [] = "symptom_rash" :=
  ⟨c5_topic_first_match "I have a rash and a headache" [], by decide⟩

-- ### C6: when the forced second call fires

/-- C6 counterexample: with urgency detected but a usable advice-stage first
result, the code does not issue the second call (the first result is kept),
while the claim's wording ("… or immediately when urgency was detected")
demands one. -/
theorem c6_counterexample :
    shouldForceAdvice ⟨true, some (.obj {stage := some "advice"})⟩ true 0 = false ∧
    claimWordedForceAdvice ⟨true, some (.obj {stage := some "advice"})⟩ true 0 = true ∧
    selectedCall ⟨true, some (.obj {stage := some "advice"})⟩ ⟨false, none⟩ true 0 =
      ⟨true, some (.obj {stage := some "advice"})⟩ := by
  refine ⟨by decide, by decide, ?_⟩
  unfold selectedCall
  rw [if_neg]
  intro hcontra
  exact absurd hcontra (by decide)

/-- C6 (amended): the second, forced "respond with advice now" call is issued
exactly when the first attempt did not already yield a usable advice-stage
result AND (urgency was detected or the assistant-turn count has reached the
max-intake threshold). -/
theorem c6_force_advice_amended (r : CallResult) (u : Bool) (atn : Nat) :
    shouldForceAdvice r u atn = true ↔
      (¬ usableAdviceFirst r ∧ (u = true ∨ MAX_INTAKE_TURNS ≤ atn)) := by
  obtain ⟨ok, parsed⟩ := r
  cases ok <;> rcases parsed with _ | (p | t) <;>
    simp [shouldForceAdvice, firstNotAdvice, usableAdviceFirst, ParsedVal.stage,
      Bool.and_eq_true, Bool.or_eq_true, decide_eq_true_iff]

/-- Witness for C6 (amended) at a concrete input: a failed first call with the
turn threshold reached forces the second call. -/
theorem c6_force_advice_amended_witness :
    shouldForceAdvice ⟨false, none⟩ false 2 = true ↔
      (¬ usableAdviceFirst ⟨false, none⟩ ∧ (false = true ∨ MAX_INTAKE_TURNS ≤ 2)) :=
  c6_force_advice_amended ⟨false, none⟩ false 2

-- ### C7: advice-stage results carry a disclaimer and a closing reminder

theorem adviceRepair_disclaimer (p : ParsedOut) :
    (adviceRepair p).disclaimer = some FRIENDLY_OPENER := by
  unfold adviceRepair
  dsimp only
  repeat' split
  all_goals rfl

theorem adviceRepair_stage (p : ParsedOut) : (adviceRepair p).stage = p.stage := by
  unfold adviceRepair
  dsimp only
  repeat' split
  all_goals rfl

theorem adviceRepair_chat_reply (p : ParsedOut) :
    (adviceRepair p).chat_reply = p.chat_reply := by
  unfold adviceRepair
  dsimp only
  repeat' split
  all_goals rfl

theorem adviceRepair_final_reminder_eq (p : ParsedOut) :
    (adviceRepair p).final_reminder =
      (if jsBlank p.final_reminder then some defaultReminder else p.final_reminder) := by
  unfold adviceRepair
  dsimp only
  repeat' split
  all_goals simp_all

theorem adviceRepair_final_reminder (p : ParsedOut) :
    ∃ fr, (adviceRepair p).final_reminder = some fr ∧ jsTrimList fr.data ≠ [] := by
  rw [adviceRepair_final_reminder_eq]
  by_cases h : jsBlank p.final_reminder = true
  · exact ⟨defaultReminder, by simp [h], by decide⟩
  · rw [Bool.not_eq_true] at h
    cases hfr : p.final_reminder with
    | none => rw [hfr] at h; exact absurd h (by simp [jsBlank])
    | some fr =>
      rw [hfr] at h
      refine ⟨fr, by simp [h], ?_⟩
      unfold jsBlank at h
      simpa using h

theorem finalGuard_disclaimer (p : ParsedOut) (atn : Nat) (q th : String) :
    (finalGuard p atn q th).disclaimer = p.disclaimer := by
  unfold finalGuard
  split <;> rfl

theorem finalGuard_final_reminder (p : ParsedOut) (atn : Nat) (q th : String) :
    (finalGuard p atn q th).final_reminder = p.final_reminder := by
  unfold finalGuard
  split <;> rfl

theorem finalGuard_stage (p : ParsedOut) (atn : Nat) (q th : String) :
    (finalGuard p atn q th).stage =
      (if jsBlank p.chat_reply then some "intake" else p.stage) := by
  unfold finalGuard
  by_cases h : jsBlank p.chat_reply = true <;> simp [h]

theorem repairParsed_advice_fields (p : ParsedOut) (atn : Nat) (q th : String) :
    (repairParsed p atn q th).stage = some "advice" →
      (repairParsed p atn q th).disclaimer = some FRIENDLY_OPENER ∧
      ∃ fr, (repairParsed p atn q th).final_reminder = some fr ∧
        jsTrimList fr.data ≠ [] := by
  unfold repairParsed
  dsimp only
  by_cases h1 : p.stage = some "intake"
  · rw [if_pos h1]
    rw [if_neg (by rw [enforceOneQuestion_stage, h1]; simp)]
    intro habs
    rw [enforceOneQuestion_stage, h1] at habs
    simp at habs
  · rw [if_neg h1]
    by_cases h2 : p.stage = some "advice"
    · rw [if_pos h2]
      intro _
      exact ⟨adviceRepair_disclaimer p, adviceRepair_final_reminder p⟩
    · rw [if_neg h2]
      intro habs
      exact absurd habs h2

/-- C7: every advice-stage emitted result carries the (non-empty) boilerplate
disclaimer and a non-blank closing reminder (defaulted when missing or
blank). -/
theorem c7_advice_stage_fields (r1 r2 : CallResult) (u : Bool) (atn : Nat)
    (th q : String) :
    (backendPhase r1 r2 u atn th q).result.stage = some "advice" →
      (backendPhase r1 r2 u atn th q).result.disclaimer = some FRIENDLY_OPENER ∧
      FRIENDLY_OPENER ≠ "" ∧
      ∃ fr, (backendPhase r1 r2 u atn th q).result.final_reminder = some fr ∧
        jsTrimList fr.data ≠ [] := by
  unfold backendPhase
  dsimp only
  by_cases hu : usableResult (selectedCall r1 r2 u atn) = true
  · rw [if_pos hu]
    dsimp only
    cases hv : (selectedCall r1 r2 u atn).parsed.getD (ParsedVal.obj {}) with
    | nonObj t =>
      intro hstage
      exact absurd hstage (by simp [repairVal, ParsedVal.stage])
    | obj p0 =>
      dsimp only [repairVal, ParsedVal.stage, ParsedVal.disclaimer, ParsedVal.final_reminder]
      intro hstage
      set P := repairParsed p0 atn q th with hP
      rw [finalGuard_stage] at hstage
      by_cases hb : jsBlank P.chat_reply = true
      · rw [if_pos hb] at hstage
        simp at hstage
      · rw [Bool.not_eq_true] at hb
        rw [hb] at hstage
        simp only [Bool.false_eq_true, if_false] at hstage
        obtain ⟨hd, fr, hfr, hfrne⟩ := repairParsed_advice_fields _ atn q th hstage
        refine ⟨?_, by decide, fr, ?_, hfrne⟩
        · rw [finalGuard_disclaimer]
          exact hd
        · rw [finalGuard_final_reminder]
          exact hfr
  · rw [if_neg hu]
    intro hstage
    dsimp only [ParsedVal.stage, ParsedVal.disclaimer, ParsedVal.final_reminder,
      safeResult] at hstage ⊢
    cases u with
    | false => simp at hstage
    | true =>
      exact ⟨rfl, by decide, defaultReminder, rfl, by decide⟩

/-- Witness for C7 at a concrete input: a usable advice-stage result with a
non-blank reply keeps stage `advice` and gets the defaulted fields. -/
theorem c7_advice_stage_fields_witness :
    (backendPhase ⟨true, some (.obj {stage := some "advice", chat_reply := some "Here is advice."})⟩ ⟨false, none⟩ false 0 "other" "q").result.disclaimer = some FRIENDLY_OPENER ∧
    FRIENDLY_OPENER ≠ "" ∧
    ∃ fr, (backendPhase ⟨true, some (.obj {stage := some "advice", chat_reply := some "Here is advice."})⟩ ⟨false, none⟩ false 0 "other" "q").result.final_reminder = some fr ∧
      jsTrimList fr.data ≠ [] :=
  c7_advice_stage_fields ⟨true, some (.obj {stage := some "advice", chat_reply := some "Here is advice."})⟩ ⟨false, none⟩ false 0 "other" "q" (by decide)


-- ### C2: intake-stage reply shape

theorem jsTrimList_eq_nil_imp (l : List Char) (h : jsTrimList l = []) :
    ∀ c ∈ l, isJsSpace c := by
  unfold jsTrimList at h
  rw [List.reverse_eq_nil_iff, List.dropWhile_eq_nil_iff] at h
  intro c hc
  rw [← List.takeWhile_append_dropWhile (p := isJsSpace) (l := l)] at hc
  rcases List.mem_append.mp hc with hmem | hmem
  · exact List.mem_takeWhile_imp hmem
  · exact h c (List.mem_reverse.mpr hmem)

theorem jsBlank_of_getLast_q (s : String) (h : s.data.getLast? = some '?') :
    jsBlank (some s) = false := by
  unfold jsBlank
  rw [decide_eq_false_iff_not]
  intro hnil
  have hq : '?' ∈ s.data := by
    cases hd : s.data with
    | nil => rw [hd] at h; simp at h
    | cons a t =>
      rw [hd] at h
      have := List.getLast?_eq_getLast (a :: t) (by simp)
      rw [this] at h
      simp only [Option.some_inj] at h
      rw [← h]
      exact List.getLast_mem _
  exact absurd (jsTrimList_eq_nil_imp s.data hnil '?' hq) (by decide)

theorem repairParsed_of_intake (p : ParsedOut) (atn : Nat) (q th : String)
    (h : p.stage = some "intake") :
    repairParsed p atn q th =
      enforceOneQuestion p (Nat.min atn (MAX_INTAKE_TURNS - 1)) q
        (jsOrStr p.topic_type th) := by
  unfold repairParsed
  dsimp only
  rw [if_pos h, if_neg (by rw [enforceOneQuestion_stage, h]; simp)]

theorem repairParsed_of_advice (p : ParsedOut) (atn : Nat) (q th : String)
    (h : p.stage = some "advice") :
    repairParsed p atn q th = adviceRepair p := by
  have h1 : ¬ p.stage = some "intake" := by rw [h]; simp
  unfold repairParsed
  dsimp only
  rw [if_neg h1, if_pos h]

theorem repairParsed_of_other (p : ParsedOut) (atn : Nat) (q th : String)
    (h1 : ¬ p.stage = some "intake") (h2 : ¬ p.stage = some "advice") :
    repairParsed p atn q th = p := by
  unfold repairParsed
  dsimp only
  rw [if_neg h1, if_neg h2]

theorem finalGuard_of_blank (p : ParsedOut) (atn : Nat) (q th : String)
    (h : jsBlank p.chat_reply = true) :
    finalGuard p atn q th =
      { p with
          stage := some "intake",
          chat_reply := some (fallbackQuestion (Nat.min atn (MAX_INTAKE_TURNS - 1)) q
            (jsOrStr p.topic_type th)) } := by
  unfold finalGuard
  rw [if_pos h]

theorem finalGuard_of_not_blank (p : ParsedOut) (atn : Nat) (q th : String)
    (h : jsBlank p.chat_reply = false) :
    finalGuard p atn q th = p := by
  unfold finalGuard
  rw [if_neg (by rw [h]; simp)]

/-- C2 (amended): every emitted intake-stage reply ends with `?`; when the
selected backend result itself was a usable intake-stage payload (so the reply
went through the one-question repair), `ask_back` is cleared to the empty
string and the reply either contains at most one `?` (truncation at the first
question mark) or is the per-topic fallback bank entry, which may contain a
second question mark. -/
theorem c2_intake_reply_amended (r1 r2 : CallResult) (u : Bool) (atn : Nat) (th q : String) :
    (backendPhase r1 r2 u atn th q).result.stage = some "intake" →
      ((backendPhase r1 r2 u atn th q).result.chat_reply.getD "").data.getLast? = some '?' ∧
      (∀ p, (selectedCall r1 r2 u atn).ok = true →
        (selectedCall r1 r2 u atn).parsed = some p →
        p.stage = some "intake" →
        (backendPhase r1 r2 u atn th q).result.ask_back = some "" ∧
        (((backendPhase r1 r2 u atn th q).result.chat_reply.getD "").data.count '?' ≤ 1 ∨
          (backendPhase r1 r2 u atn th q).result.chat_reply =
            some (fallbackQuestion (Nat.min atn (MAX_INTAKE_TURNS - 1)) q
              (jsOrStr p.topic_type th)))) := by
  unfold backendPhase
  dsimp only
  by_cases hu : usableResult (selectedCall r1 r2 u atn) = true
  · rw [if_pos hu]
    dsimp only
    cases hv : (selectedCall r1 r2 u atn).parsed.getD (ParsedVal.obj {}) with
    | nonObj t =>
      intro hstage
      exact absurd hstage (by simp [repairVal, ParsedVal.stage])
    | obj p0 =>
      dsimp only [repairVal, ParsedVal.stage, ParsedVal.chat_reply, ParsedVal.ask_back]
      have hps : ∀ p : ParsedVal, (selectedCall r1 r2 u atn).parsed = some p →
          p = ParsedVal.obj p0 := by
        intro p hp
        rw [hp] at hv
        simpa using hv
      by_cases hint : p0.stage = some "intake"
      · rw [repairParsed_of_intake _ _ _ _ hint]
        obtain ⟨q2, hq2, hlast, hcnt⟩ := enforceOneQuestion_reply_spec p0
          (Nat.min atn (MAX_INTAKE_TURNS - 1)) q (jsOrStr p0.topic_type th)
        have hnb : jsBlank (enforceOneQuestion p0 (Nat.min atn (MAX_INTAKE_TURNS - 1)) q
            (jsOrStr p0.topic_type th)).chat_reply = false := by
          rw [hq2]; exact jsBlank_of_getLast_q _ hlast
        rw [finalGuard_of_not_blank _ _ _ _ hnb]
        intro _
        refine ⟨by rw [hq2]; simpa using hlast, ?_⟩
        intro p hok hp hpstage
        rw [hps p hp]
        refine ⟨enforceOneQuestion_ask_back _ _ _ _, ?_⟩
        rcases hcnt with hc | hc
        · left; rw [hq2]; simpa using hc
        · right; rw [hq2, hc]; rfl
      · by_cases hadv : p0.stage = some "advice"
        · rw [repairParsed_of_advice _ _ _ _ hadv]
          by_cases hb : jsBlank (adviceRepair p0).chat_reply = true
          · rw [finalGuard_of_blank _ _ _ _ hb]
            intro _
            constructor
            · simpa using fallbackQuestion_getLast _ _ _
            · intro p hok hp hpstage
              exfalso
              rw [hps p hp] at hpstage
              have hps0 : p0.stage = some "intake" := hpstage
              rw [hps0] at hadv
              simp at hadv
          · rw [Bool.not_eq_true] at hb
            rw [finalGuard_of_not_blank _ _ _ _ hb]
            intro hstage
            exfalso
            rw [adviceRepair_stage, hadv] at hstage
            simp at hstage
        · rw [repairParsed_of_other _ _ _ _ hint hadv]
          by_cases hb : jsBlank p0.chat_reply = true
          · rw [finalGuard_of_blank _ _ _ _ hb]
            intro _
            constructor
            · simpa using fallbackQuestion_getLast _ _ _
            · intro p hok hp hpstage
              exfalso
              rw [hps p hp] at hpstage
              have hps0 : p0.stage = some "intake" := hpstage
              exact absurd hps0 hint
          · rw [Bool.not_eq_true] at hb
            rw [finalGuard_of_not_blank _ _ _ _ hb]
            intro hstage
            exact absurd hstage hint
  · rw [if_neg hu]
    intro hstage
    dsimp only [ParsedVal.stage, ParsedVal.chat_reply, ParsedVal.ask_back,
      safeResult] at hstage ⊢
    cases u with
    | true => simp at hstage
    | false =>
      constructor
      · simpa using fallbackQuestion_getLast _ _ _
      · intro p hok hp hpstage
        exfalso
        apply hu
        unfold usableResult
        rw [hok, hp]
        rfl

/-- Witness for C2 (amended) at a concrete input: a usable intake result whose
reply already is a single question. -/
theorem c2_intake_reply_amended_witness :
    ((backendPhase ⟨true, some (.obj {stage := some "intake", chat_reply := some "Is it sudden?"})⟩ ⟨false, none⟩ false 0 "other" "q").result.chat_reply.getD "").data.getLast? = some '?' ∧
    (∀ p, (selectedCall ⟨true, some (.obj {stage := some "intake", chat_reply := some "Is it sudden?"})⟩ ⟨false, none⟩ false 0).ok = true →
      (selectedCall ⟨true, some (.obj {stage := some "intake", chat_reply := some "Is it sudden?"})⟩ ⟨false, none⟩ false 0).parsed = some p →
      p.stage = some "intake" →
      (backendPhase ⟨true, some (.obj {stage := some "intake", chat_reply := some "Is it sudden?"})⟩ ⟨false, none⟩ false 0 "other" "q").result.ask_back = some "" ∧
      (((backendPhase ⟨true, some (.obj {stage := some "intake", chat_reply := some "Is it sudden?"})⟩ ⟨false, none⟩ false 0 "other" "q").result.chat_reply.getD "").data.count '?' ≤ 1 ∨
        (backendPhase ⟨true, some (.obj {stage := some "intake", chat_reply := some "Is it sudden?"})⟩ ⟨false, none⟩ false 0 "other" "q").result.chat_reply =
          some (fallbackQuestion (Nat.min 0 (MAX_INTAKE_TURNS - 1)) "q" (jsOrStr p.topic_type "other")))) :=
  c2_intake_reply_amended ⟨true, some (.obj {stage := some "intake", chat_reply := some "Is it sudden?"})⟩ ⟨false, none⟩ false 0 "other" "q" (by decide)

/-- C2 counterexample: an emitted intake-stage reply can contain two `?`
characters: an empty model reply for topic `growth_development` at intake step
1 is replaced by the bank's two-question follow-up entry. -/
theorem c2_counterexample :
    (backendPhase ⟨true, some (.obj {stage := some "intake", chat_reply := some "", topic_type := some "growth_development"})⟩ ⟨false, none⟩ false 1 "other" "hello").result.stage = some "intake" ∧
    2 ≤ ((backendPhase ⟨true, some (.obj {stage := some "intake", chat_reply := some "", topic_type := some "growth_development"})⟩ ⟨false, none⟩ false 1 "other" "hello").result.chat_reply.getD "").data.count '?' := by
  constructor
  · decide
  · decide


-- ### C8: backend unreliability never becomes an error response

/-- C8 counterexample: when the forced second call returns a usable result in
the wrong stage (`intake`), the handler returns 200/`ok:true` but neither a
synthesized fallback result nor the raw payload — the claim's "synthesized
fallback result … and the raw backend payload attached" does not hold for
this listed form of backend unreliability. -/
theorem c8_counterexample :
    (backendPhase ⟨false, none⟩ ⟨true, some (.obj {stage := some "intake", chat_reply := some "Is it sudden?"})⟩ false 2 "other" "q").statusCode = 200 ∧
    (backendPhase ⟨false, none⟩ ⟨true, some (.obj {stage := some "intake", chat_reply := some "Is it sudden?"})⟩ false 2 "other" "q").okField = true ∧
    (backendPhase ⟨false, none⟩ ⟨true, some (.obj {stage := some "intake", chat_reply := some "Is it sudden?"})⟩ false 2 "other" "q").rawAttached = false ∧
    (backendPhase ⟨false, none⟩ ⟨true, some (.obj {stage := some "intake", chat_reply := some "Is it sudden?"})⟩ false 2 "other" "q").result.chat_reply = some "Is it sudden?" ∧
    (backendPhase ⟨false, none⟩ ⟨true, some (.obj {stage := some "intake", chat_reply := some "Is it sudden?"})⟩ false 2 "other" "q").result ≠ ParsedVal.obj (safeResult false 2 "other" "q") := by
  refine ⟨by decide, by decide, by decide, by decide, by decide⟩

theorem usable_parsed_some (r : CallResult) (h : usableResult r = true) :
    r.parsed = some (r.parsed.getD (ParsedVal.obj {})) := by
  unfold usableResult at h
  cases hp : r.parsed with
  | none => rw [hp] at h; simp at h
  | some x => rfl

/-- C8 (amended): past validation and moderation the handler always answers
200 with `ok: true`; when no usable parsed result exists after all attempts,
the result is the synthesized fallback with the raw payload attached; when a
usable (possibly wrong-stage) result exists, it is repaired and returned
without the raw payload. -/
theorem c8_backend_failure_recovery (r1 r2 : CallResult) (u : Bool) (atn : Nat)
    (th q : String) :
    (backendPhase r1 r2 u atn th q).statusCode = 200 ∧
    (backendPhase r1 r2 u atn th q).okField = true ∧
    (usableResult (selectedCall r1 r2 u atn) = false →
      (backendPhase r1 r2 u atn th q).rawAttached = true ∧
      (backendPhase r1 r2 u atn th q).result = ParsedVal.obj (safeResult u atn th q)) ∧
    (usableResult (selectedCall r1 r2 u atn) = true →
      (backendPhase r1 r2 u atn th q).rawAttached = false) := by
  unfold backendPhase
  dsimp only
  by_cases hu : usableResult (selectedCall r1 r2 u atn) = true
  · rw [if_pos hu]
    exact ⟨rfl, rfl, fun hfalse => absurd hu (by rw [hfalse]; simp), fun _ => rfl⟩
  · rw [if_neg hu]
    rw [Bool.not_eq_true] at hu
    exact ⟨rfl, rfl, fun _ => ⟨rfl, rfl⟩, fun htrue => absurd htrue (by rw [hu]; simp)⟩

/-- Witness for C8 (amended) at a concrete input: both failed calls yield the
synthesized fallback with the raw payload attached. -/
theorem c8_backend_failure_recovery_witness :
    (backendPhase ⟨false, none⟩ ⟨false, none⟩ false 0 "other" "q").statusCode = 200 ∧
    (backendPhase ⟨false, none⟩ ⟨false, none⟩ false 0 "other" "q").okField = true ∧
    (usableResult (selectedCall ⟨false, none⟩ ⟨false, none⟩ false 0) = false →
      (backendPhase ⟨false, none⟩ ⟨false, none⟩ false 0 "other" "q").rawAttached = true ∧
      (backendPhase ⟨false, none⟩ ⟨false, none⟩ false 0 "other" "q").result =
        ParsedVal.obj (safeResult false 0 "other" "q")) ∧
    (usableResult (selectedCall ⟨false, none⟩ ⟨false, none⟩ false 0) = true →
      (backendPhase ⟨false, none⟩ ⟨false, none⟩ false 0 "other" "q").rawAttached = false) :=
  c8_backend_failure_recovery ⟨false, none⟩ ⟨false, none⟩ false 0 "other" "q"

-- ### C9: the emitted stage field

/-- C9 counterexample: a parsed payload with stage `"banana"` and a non-blank
reply is emitted unchanged in a 200 response, so the emitted stage is not
confined to the `intake`/`advice` enumeration. -/
theorem c9_counterexample :
    (backendPhase ⟨true, some (.obj {stage := some "banana", chat_reply := some "hi"})⟩ ⟨false, none⟩ false 0 "other" "hello").statusCode = 200 ∧
    (backendPhase ⟨true, some (.obj {stage := some "banana", chat_reply := some "hi"})⟩ ⟨false, none⟩ false 0 "other" "hello").result.stage = some "banana" ∧
    ¬((backendPhase ⟨true, some (.obj {stage := some "banana", chat_reply := some "hi"})⟩ ⟨false, none⟩ false 0 "other" "hello").result.stage = some "intake" ∨
      (backendPhase ⟨true, some (.obj {stage := some "banana", chat_reply := some "hi"})⟩ ⟨false, none⟩ false 0 "other" "hello").result.stage = some "advice") := by
  refine ⟨by decide, by decide, by decide⟩

/-- C9 (amended): the emitted stage is `intake`, `advice`, or passed through
verbatim from the backend's parsed payload (a non-enumeration stage survives
exactly when the reply is non-blank; a blank reply forces `intake`). -/
theorem c9_stage_enum_amended (r1 r2 : CallResult) (u : Bool) (atn : Nat)
    (th q : String) :
    (backendPhase r1 r2 u atn th q).result.stage = some "intake" ∨
    (backendPhase r1 r2 u atn th q).result.stage = some "advice" ∨
    (∃ p, (selectedCall r1 r2 u atn).parsed = some p ∧
      (backendPhase r1 r2 u atn th q).result.stage = p.stage) := by
  unfold backendPhase
  dsimp only
  by_cases hu : usableResult (selectedCall r1 r2 u atn) = true
  · rw [if_pos hu]
    dsimp only
    cases hv : (selectedCall r1 r2 u atn).parsed.getD (ParsedVal.obj {}) with
    | nonObj t =>
      right; right
      refine ⟨ParsedVal.nonObj t, ?_, ?_⟩
      · rw [usable_parsed_some _ hu, hv]
      · simp [repairVal, ParsedVal.stage]
    | obj p0 =>
      dsimp only [repairVal, ParsedVal.stage]
      by_cases hint : p0.stage = some "intake"
      · left
        rw [finalGuard_stage]
        rw [repairParsed_of_intake _ _ _ _ hint]
        split
        · rfl
        · rw [enforceOneQuestion_stage]
          exact hint
      · by_cases hadv : p0.stage = some "advice"
        · rw [repairParsed_of_advice _ _ _ _ hadv, finalGuard_stage]
          split
          · exact Or.inl rfl
          · right; left
            rw [adviceRepair_stage]
            exact hadv
        · rw [repairParsed_of_other _ _ _ _ hint hadv, finalGuard_stage]
          split
          · exact Or.inl rfl
          · right; right
            exact ⟨ParsedVal.obj p0, by rw [usable_parsed_some _ hu, hv], rfl⟩
  · rw [if_neg hu]
    dsimp only [ParsedVal.stage, safeResult]
    cases u with
    | true => right; left; rfl
    | false => left; rfl

-- ### C10: the dosing-sanitation pass

theorem ciPrefixRem_suffix : ∀ (pat cs r : List Char), ciPrefixRem pat cs = some r → r <:+ cs := by
  intro pat
  induction pat with
  | nil => intro cs r h; unfold ciPrefixRem at h; simp at h; rw [h]
  | cons p ps ih =>
    intro cs r h
    cases cs with
    | nil => simp [ciPrefixRem] at h
    | cons c cs' =>
      unfold ciPrefixRem at h
      by_cases hc : c.toLower = p
      · rw [if_pos hc] at h
        exact (ih cs' r h).trans (List.suffix_cons c cs')
      · rw [if_neg hc] at h
        simp at h

theorem ciPrefixRem_length : ∀ (pat cs r : List Char), ciPrefixRem pat cs = some r →
    r.length + pat.length = cs.length := by
  intro pat
  induction pat with
  | nil => intro cs r h; unfold ciPrefixRem at h; simp at h; rw [h]; simp
  | cons p ps ih =>
    intro cs r h
    cases cs with
    | nil => simp [ciPrefixRem] at h
    | cons c cs' =>
      unfold ciPrefixRem at h
      by_cases hc : c.toLower = p
      · rw [if_pos hc] at h
        have := ih cs' r h
        simp only [List.length_cons]
        omega
      · rw [if_neg hc] at h
        simp at h

theorem tryUnitList_rem : ∀ (pats : List (List Char)) (cs rem : List Char) (lw : Bool),
    (∀ p ∈ pats, p ≠ []) → tryUnitList pats cs = some (rem, lw) →
    rem <:+ cs ∧ rem.length < cs.length := by
  intro pats
  induction pats with
  | nil => intro cs rem lw _ h; simp [tryUnitList] at h
  | cons pat ps ih =>
    intro cs rem lw hne h
    unfold tryUnitList at h
    cases hc : ciPrefixRem pat cs with
    | none =>
      rw [hc] at h
      exact ih cs rem lw (fun p hp => hne p (List.mem_cons_of_mem _ hp)) h
    | some rest =>
      rw [hc] at h
      dsimp only at h
      by_cases hb : (isWordChar (pat.getLastD '?') != isWordHead rest) = true
      · rw [if_pos hb] at h
        simp only [Option.some_inj, Prod.mk.injEq] at h
        obtain ⟨h1, -⟩ := h
        subst h1
        have hlen := ciPrefixRem_length pat cs rest hc
        have hpat : pat ≠ [] := hne pat (List.mem_cons_self _ _)
        have hpl : 0 < pat.length := List.length_pos.mpr hpat
        exact ⟨ciPrefixRem_suffix pat cs rest hc, by omega⟩
      · rw [if_neg hb] at h
        exact ih cs rem lw (fun p hp => hne p (List.mem_cons_of_mem _ hp)) h

theorem matchDosing_prevWord_true (cs : List Char) : matchDosing true cs = none := by
  cases cs with
  | nil => rfl
  | cons c rest => rfl

theorem matchDosing_nondigit (b : Bool) (c : Char) (rest : List Char)
    (h : isDigitChar c = false) : matchDosing b (c :: rest) = none := by
  unfold matchDosing
  cases b with
  | true => rfl
  | false => dsimp only; rw [h]; simp

theorem matchDosing_some (b : Bool) (c : Char) (rest rem : List Char) (lw : Bool)
    (h : matchDosing b (c :: rest) = some (rem, lw)) :
    b = false ∧ isDigitChar c = true ∧ rem <:+ rest ∧ rem.length ≤ rest.length := by
  unfold matchDosing at h
  cases b with
  | true => simp at h
  | false =>
    dsimp only at h
    by_cases hd : isDigitChar c = true
    · rw [hd] at h
      simp only [Bool.not_true, Bool.false_eq_true, if_false] at h
      refine ⟨rfl, hd, ?_⟩
      cases hds : rest.dropWhile isDigitChar with
      | nil => rw [hds] at h; simp at h
      | cons e rest2 =>
        rw [hds] at h
        dsimp only at h
        have hsuf : e :: rest2 <:+ rest := hds ▸ List.dropWhile_suffix isDigitChar
        have hlen : (e :: rest2).length ≤ rest.length := hsuf.length_le
        by_cases hsp : isJsSpace e = true
        · rw [if_pos hsp] at h
          obtain ⟨hs, hl⟩ := tryUnitList_rem unitAlts rest2 rem lw (by decide) h
          have h2 : rest2 <:+ e :: rest2 := List.suffix_cons e rest2
          exact ⟨(hs.trans h2).trans hsuf, by simp only [List.length_cons] at hlen; omega⟩
        · rw [if_neg hsp] at h
          obtain ⟨hs, hl⟩ := tryUnitList_rem unitAlts (e :: rest2) rem lw (by decide) h
          exact ⟨hs.trans hsuf, by simp only [List.length_cons] at hlen hl; omega⟩
    · rw [Bool.not_eq_true] at hd
      rw [hd] at h
      simp at h

theorem stripDoseAux_succ (f : Nat) (b : Bool) (c : Char) (rest : List Char) :
    stripDoseAux (f + 1) b (c :: rest) =
      (match matchDosing b (c :: rest) with
       | some (rem, lw) => doseRepl ++ stripDoseAux f lw rem
       | none => c :: stripDoseAux f (isWordChar c) rest) := rfl

theorem stripDoseAux_eq_stripD : ∀ (f : Nat) (b : Bool) (cs : List Char), cs.length ≤ f →
    stripDoseAux f b cs = stripD b cs := by
  intro f
  induction f using Nat.strong_induction_on with
  | _ f ih =>
    intro b cs hlen
    cases f with
    | zero =>
      cases cs with
      | nil => rfl
      | cons c rest => simp at hlen
    | succ f' =>
      cases cs with
      | nil => rfl
      | cons c rest =>
        have hr : rest.length ≤ f' := by simp only [List.length_cons] at hlen; omega
        show stripDoseAux (f' + 1) b (c :: rest) = stripDoseAux (c :: rest).length b (c :: rest)
        rw [stripDoseAux_succ, show (c :: rest).length = rest.length + 1 from rfl,
          stripDoseAux_succ]
        cases hm : matchDosing b (c :: rest) with
        | none =>
          dsimp only
          rw [ih f' (by omega) (isWordChar c) rest hr]
          rw [ih rest.length (by omega) (isWordChar c) rest (le_refl _)]
        | some x =>
          obtain ⟨rem, lw⟩ := x
          dsimp only
          have hrem := (matchDosing_some b c rest rem lw hm).2.2.2
          rw [ih f' (by omega) lw rem (by omega)]
          rw [ih rest.length (by omega) lw rem (by omega)]

theorem stripD_nil (b : Bool) : stripD b [] = [] := rfl

theorem stripD_cons_none (b : Bool) (c : Char) (rest : List Char)
    (hm : matchDosing b (c :: rest) = none) :
    stripD b (c :: rest) = c :: stripD (isWordChar c) rest := by
  show stripDoseAux (rest.length + 1) b (c :: rest) = c :: stripD (isWordChar c) rest
  rw [stripDoseAux_succ, hm]
  rfl

theorem stripD_cons_some (b : Bool) (c : Char) (rest rem : List Char) (lw : Bool)
    (hm : matchDosing b (c :: rest) = some (rem, lw)) :
    stripD b (c :: rest) = doseRepl ++ stripD lw rem := by
  show stripDoseAux (rest.length + 1) b (c :: rest) = doseRepl ++ stripD lw rem
  rw [stripDoseAux_succ, hm]
  dsimp only
  rw [stripDoseAux_eq_stripD rest.length lw rem (matchDosing_some b c rest rem lw hm).2.2.2]

theorem isWordChar_of_digit (c : Char) (h : isDigitChar c = true) : isWordChar c = true := by
  unfold isDigitChar at h
  unfold isWordChar
  rw [Bool.and_eq_true] at h
  simp only [Bool.or_eq_true]
  left; right
  rw [Bool.and_eq_true]
  exact h

theorem stripD_true_digits : ∀ rest : List Char,
    stripD true rest = rest.takeWhile isDigitChar ++
      (match rest.dropWhile isDigitChar with
       | [] => []
       | e :: r2 => e :: stripD (isWordChar e) r2) := by
  intro rest
  induction rest with
  | nil => rfl
  | cons x xs ih =>
    rw [stripD_cons_none true x xs (matchDosing_prevWord_true _)]
    by_cases hx : isDigitChar x = true
    · rw [List.takeWhile_cons_of_pos hx, List.dropWhile_cons_of_pos hx]
      rw [isWordChar_of_digit x hx, ih]
      rfl
    · rw [Bool.not_eq_true] at hx
      rw [List.takeWhile_cons_of_neg (by rw [hx]; simp),
        List.dropWhile_cons_of_neg (by rw [hx]; simp)]
      rfl

theorem StripRel_stripD : ∀ (n : Nat) (cs : List Char) (b : Bool), cs.length ≤ n →
    StripRel cs (stripD b cs) := by
  intro n
  induction n with
  | zero =>
    intro cs b hlen
    have hnil : cs = [] := List.eq_nil_of_length_eq_zero (by omega)
    subst hnil
    exact StripRel.nil
  | succ n ih =>
    intro cs b hlen
    cases cs with
    | nil => exact StripRel.nil
    | cons c rest =>
      cases hm : matchDosing b (c :: rest) with
      | none =>
        rw [stripD_cons_none b c rest hm]
        exact StripRel.copy c (ih rest (isWordChar c)
          (by simp only [List.length_cons] at hlen; omega))
      | some x =>
        obtain ⟨rem, lw⟩ := x
        rw [stripD_cons_some b c rest rem lw hm]
        obtain ⟨-, hdig, hsuf, hle⟩ := matchDosing_some b c rest rem lw hm
        obtain ⟨mid, hmid⟩ := hsuf
        have : c :: rest = c :: (mid ++ rem) := by rw [hmid]
        rw [this]
        exact StripRel.repl hdig (ih rem lw
          (by simp only [List.length_cons] at hlen; omega))

theorem StripRel_isWordHead {t t' : List Char} (h : StripRel t t') :
    isWordHead t' = isWordHead t := by
  cases h with
  | nil => rfl
  | copy c _ => rfl
  | repl hd hrel =>
    rename_i d mid rem t0
    show isWordHead (doseRepl ++ t0) = isWordHead (d :: (mid ++ rem))
    have h1 : isWordHead (doseRepl ++ t0) = true := rfl
    have h2 : isWordHead (d :: (mid ++ rem)) = isWordChar d := rfl
    rw [h1, h2, isWordChar_of_digit d hd]

theorem ciPrefixRem_transfer : ∀ (pat : List Char), 'a' ∉ pat →
    ∀ (t t' : List Char), StripRel t t' → ∀ r', ciPrefixRem pat t' = some r' →
      ∃ r, ciPrefixRem pat t = some r ∧ StripRel r r' := by
  intro pat
  induction pat with
  | nil =>
    intro _ t t' hrel r' h
    unfold ciPrefixRem at h
    simp only [Option.some_inj] at h
    subst h
    exact ⟨t, rfl, hrel⟩
  | cons p ps ih =>
    intro hpa t t' hrel r' h
    cases hrel with
    | nil => simp [ciPrefixRem] at h
    | copy c hrel' =>
      rename_i tt tt'
      unfold ciPrefixRem at h
      by_cases hc : c.toLower = p
      · rw [if_pos hc] at h
        obtain ⟨r, hr, hrel2⟩ :=
          ih (fun hm => hpa (List.mem_cons_of_mem _ hm)) tt tt' hrel' r' h
        refine ⟨r, ?_, hrel2⟩
        unfold ciPrefixRem
        rw [if_pos hc]
        exact hr
      · rw [if_neg hc] at h
        simp at h
    | repl hd hrel' =>
      rename_i d mid rem t0
      exfalso
      have hcons : doseRepl ++ t0 = 'a' :: (" doctor-directed dose".data ++ t0) := rfl
      rw [hcons] at h
      unfold ciPrefixRem at h
      by_cases hp' : ('a' : Char).toLower = p
      · apply hpa
        have ha : ('a' : Char).toLower = 'a' := by decide
        rw [ha] at hp'
        rw [← hp']
        exact List.mem_cons_self _ _
      · rw [if_neg hp'] at h
        simp at h

theorem tryUnitList_transfer : ∀ (pats : List (List Char)), (∀ p ∈ pats, 'a' ∉ p) →
    ∀ (t t' : List Char), StripRel t t' → tryUnitList pats t = none →
      tryUnitList pats t' = none := by
  intro pats
  induction pats with
  | nil => intro _ t t' _ _; rfl
  | cons pat ps ih =>
    intro hpa t t' hrel h
    unfold tryUnitList at h ⊢
    cases hc' : ciPrefixRem pat t' with
    | none =>
      dsimp only
      cases hc : ciPrefixRem pat t with
      | none =>
        rw [hc] at h
        dsimp only at h
        exact ih (fun p hp => hpa p (List.mem_cons_of_mem _ hp)) t t' hrel h
      | some r =>
        rw [hc] at h
        dsimp only at h
        by_cases hb : (isWordChar (pat.getLastD '?') != isWordHead r) = true
        · rw [if_pos hb] at h
          simp at h
        · rw [if_neg hb] at h
          exact ih (fun p hp => hpa p (List.mem_cons_of_mem _ hp)) t t' hrel h
    | some r' =>
      dsimp only
      obtain ⟨r, hr, hrel2⟩ :=
        ciPrefixRem_transfer pat (hpa pat (List.mem_cons_self _ _)) t t' hrel r' hc'
      rw [hr] at h
      dsimp only at h
      have hbeq : isWordHead r' = isWordHead r := StripRel_isWordHead hrel2
      by_cases hb : (isWordChar (pat.getLastD '?') != isWordHead r) = true
      · rw [if_pos hb] at h
        simp at h
      · rw [if_neg hb] at h
        rw [hbeq, if_neg hb]
        exact ih (fun p hp => hpa p (List.mem_cons_of_mem _ hp)) t t' hrel h

theorem dropWhile_head_false {p : Char → Bool} {l : List Char} {e : Char} {t : List Char}
    (h : l.dropWhile p = e :: t) : p e = false := by
  induction l with
  | nil => simp at h
  | cons x xs ih =>
    by_cases hx : p x = true
    · rw [List.dropWhile_cons_of_pos hx] at h
      exact ih h
    · rw [Bool.not_eq_true] at hx
      rw [List.dropWhile_cons_of_neg (by rw [hx]; simp)] at h
      obtain ⟨h1, -⟩ := List.cons.injEq .. ▸ h
      rw [← h1]
      exact hx

theorem dropWhile_append_of_all {p : Char → Bool} {A B : List Char}
    (hA : ∀ a ∈ A, p a = true) : (A ++ B).dropWhile p = B.dropWhile p := by
  induction A with
  | nil => rfl
  | cons x xs ih =>
    rw [List.cons_append, List.dropWhile_cons_of_pos (hA x (List.mem_cons_self _ _))]
    exact ih (fun a ha => hA a (List.mem_cons_of_mem _ ha))

theorem matchDosing_transfer (b : Bool) (c : Char) (rest : List Char)
    (h : matchDosing b (c :: rest) = none) :
    matchDosing b (c :: stripD (isWordChar c) rest) = none := by
  cases b with
  | true => exact matchDosing_prevWord_true _
  | false =>
    by_cases hd : isDigitChar c = true
    · rw [isWordChar_of_digit c hd]
      unfold matchDosing at h ⊢
      dsimp only at h ⊢
      rw [hd] at h ⊢
      simp only [Bool.not_true, Bool.false_eq_true, if_false] at h ⊢
      rw [stripD_true_digits rest]
      cases hds : rest.dropWhile isDigitChar with
      | nil =>
        dsimp only
        have hnil : (rest.takeWhile isDigitChar ++ ([] : List Char)).dropWhile isDigitChar
            = ([] : List Char) := by
          rw [List.append_nil, List.dropWhile_eq_nil_iff]
          exact fun x hx => List.mem_takeWhile_imp hx
        rw [hnil]
      | cons e r2 =>
        rw [hds] at h
        dsimp only at h ⊢
        have he : isDigitChar e = false := dropWhile_head_false hds
        have hdw : (rest.takeWhile isDigitChar ++
            (e :: stripD (isWordChar e) r2)).dropWhile isDigitChar =
            e :: stripD (isWordChar e) r2 := by
          rw [dropWhile_append_of_all (fun a ha => List.mem_takeWhile_imp ha)]
          exact List.dropWhile_cons_of_neg (by rw [he]; simp)
        rw [hdw]
        dsimp only
        by_cases hsp : isJsSpace e = true
        · rw [if_pos hsp] at h ⊢
          exact tryUnitList_transfer unitAlts (by decide) r2 _
            (StripRel_stripD r2.length r2 (isWordChar e) (le_refl _)) h
        · rw [if_neg hsp] at h ⊢
          exact tryUnitList_transfer unitAlts (by decide) (e :: r2) _
            (StripRel.copy e (StripRel_stripD r2.length r2 (isWordChar e) (le_refl _))) h
    · rw [Bool.not_eq_true] at hd
      exact matchDosing_nondigit false c _ hd

theorem hasDosingMatch_cons (b : Bool) (c : Char) (X : List Char) :
    hasDosingMatch b (c :: X) =
      ((matchDosing b (c :: X)).isSome || hasDosingMatch (isWordChar c) X) := rfl

theorem hasDosingMatch_cons_nondigit (b : Bool) (c : Char) (X : List Char)
    (h : isDigitChar c = false) :
    hasDosingMatch b (c :: X) = hasDosingMatch (isWordChar c) X := by
  rw [hasDosingMatch_cons, matchDosing_nondigit b c X h]
  simp

theorem hasDM_append_nondigit : ∀ (pre : List Char) (b : Bool) (X : List Char),
    pre.all (fun c => !isDigitChar c) = true →
    hasDosingMatch b (pre ++ X) =
      hasDosingMatch (pre.foldl (fun _ c => isWordChar c) b) X := by
  intro pre
  induction pre with
  | nil => intro b X _; rfl
  | cons c pre' ih =>
    intro b X hall
    rw [List.all_cons, Bool.and_eq_true] at hall
    rw [List.cons_append, hasDosingMatch_cons_nondigit _ _ _ (by simpa using hall.1)]
    rw [ih (isWordChar c) X hall.2]
    rfl

theorem hasDosingMatch_doseRepl (b : Bool) (X : List Char) :
    hasDosingMatch b (doseRepl ++ X) = hasDosingMatch true X := by
  rw [hasDM_append_nondigit doseRepl b X (by decide)]
  congr 1

theorem hasDosingMatch_of_false (cs : List Char) (b : Bool)
    (h : hasDosingMatch false cs = false) : hasDosingMatch b cs = false := by
  cases b with
  | false => exact h
  | true =>
    cases cs with
    | nil => rfl
    | cons c rest =>
      rw [hasDosingMatch_cons, matchDosing_prevWord_true]
      rw [hasDosingMatch_cons, Bool.or_eq_false_iff] at h
      simp only [Option.isSome_none, Bool.false_or]
      exact h.2

theorem stripD_no_match : ∀ (n : Nat) (cs : List Char) (b : Bool), cs.length ≤ n →
    hasDosingMatch b (stripD b cs) = false := by
  intro n
  induction n with
  | zero =>
    intro cs b hlen
    have hnil : cs = [] := List.eq_nil_of_length_eq_zero (by omega)
    subst hnil
    rfl
  | succ n ih =>
    intro cs b hlen
    cases cs with
    | nil => rfl
    | cons c rest =>
      have hr : rest.length ≤ n := by simp only [List.length_cons] at hlen; omega
      cases hm : matchDosing b (c :: rest) with
      | none =>
        rw [stripD_cons_none b c rest hm]
        rw [hasDosingMatch_cons, matchDosing_transfer b c rest hm]
        simp only [Option.isSome_none, Bool.false_or]
        exact ih rest (isWordChar c) hr
      | some x =>
        obtain ⟨rem, lw⟩ := x
        rw [stripD_cons_some b c rest rem lw hm]
        rw [hasDosingMatch_doseRepl]
        have hrem : rem.length ≤ n := by
          have := (matchDosing_some b c rest rem lw hm).2.2.2
          omega
        cases lw with
        | true => exact ih rem true hrem
        | false => exact hasDosingMatch_of_false _ true (ih rem false hrem)

theorem stripDoseUnits_no_match (cs : List Char) :
    hasDosingMatch false (stripDoseUnits cs) = false :=
  stripD_no_match cs.length cs false (le_refl _)

theorem countDigits_append (A B : List Char) :
    countDigits (A ++ B) = countDigits A + countDigits B := by
  unfold countDigits
  rw [List.filter_append, List.length_append]

theorem countDigits_suffix_le {A B : List Char} (h : A <:+ B) :
    countDigits A ≤ countDigits B := by
  obtain ⟨C, hC⟩ := h
  rw [← hC, countDigits_append]
  omega

theorem countDigits_cons (c : Char) (l : List Char) :
    countDigits (c :: l) = (if isDigitChar c then 1 else 0) + countDigits l := by
  unfold countDigits
  rw [List.filter_cons]
  split
  · simp
    omega
  · simp

theorem countDigits_reverse (l : List Char) : countDigits l.reverse = countDigits l := by
  unfold countDigits
  rw [List.filter_reverse, List.length_reverse]

theorem gsubAux_succ (matcher : Bool → List Char → Option (List Char × Bool))
    (repl : List Char) (f : Nat) (b : Bool) (c : Char) (rest : List Char) :
    gsubAux matcher repl (f + 1) b (c :: rest) =
      (match matcher b (c :: rest) with
       | some (rem, lw) => repl ++ gsubAux matcher repl f lw rem
       | none => c :: gsubAux matcher repl f (isWordChar c) rest) := rfl

theorem gsubAux_countDigits (matcher : Bool → List Char → Option (List Char × Bool))
    (repl : List Char) (hrepl : countDigits repl = 0)
    (hm : ∀ b c rest rem lw, matcher b (c :: rest) = some (rem, lw) →
      rem <:+ (c :: rest)) :
    ∀ (f : Nat) (b : Bool) (cs : List Char),
      countDigits (gsubAux matcher repl f b cs) ≤ countDigits cs := by
  intro f
  induction f with
  | zero => intro b cs; exact le_refl _
  | succ f ih =>
    intro b cs
    cases cs with
    | nil => exact le_refl _
    | cons c rest =>
      rw [gsubAux_succ]
      cases hmc : matcher b (c :: rest) with
      | none =>
        dsimp only
        rw [countDigits_cons, countDigits_cons]
        have := ih (isWordChar c) rest
        omega
      | some x =>
        obtain ⟨rem, lw⟩ := x
        dsimp only
        rw [countDigits_append, hrepl]
        have h1 := ih lw rem
        have h2 := countDigits_suffix_le (hm b c rest rem lw hmc)
        omega

theorem numUnitTail_suffix (alts : List (List Char)) (r2 rem : List Char) (lw : Bool)
    (hne : ∀ p ∈ alts, p ≠ []) (h : numUnitTail alts r2 = some (rem, lw)) : rem <:+ r2 := by
  unfold numUnitTail at h
  cases r2 with
  | nil => simp at h
  | cons d2 r3 =>
    dsimp only at h
    by_cases hd : isDigitChar d2 = true
    · rw [if_pos hd] at h
      cases hds : r3.dropWhile isDigitChar with
      | nil => rw [hds] at h; simp at h
      | cons e r4 =>
        rw [hds] at h
        dsimp only at h
        have hsfx : e :: r4 <:+ r3 := hds ▸ List.dropWhile_suffix isDigitChar
        have hr3 : r3 <:+ d2 :: r3 := List.suffix_cons d2 r3
        by_cases hsp : isJsSpace e = true
        · rw [if_pos hsp] at h
          exact (((tryUnitList_rem alts r4 rem lw hne h).1.trans
            (List.suffix_cons e r4)).trans hsfx).trans hr3
        · rw [if_neg hsp] at h
          exact ((tryUnitList_rem alts (e :: r4) rem lw hne h).1.trans hsfx).trans hr3
    · rw [if_neg hd] at h
      simp at h

theorem timeRangeSep_suffix (ds r2 : List Char) (h : timeRangeSep ds = some r2) :
    r2 <:+ ds := by
  unfold timeRangeSep at h
  split at h
  · rename_i a r
    by_cases hsp : isJsSpace a = true
    · rw [if_pos hsp] at h
      simp only [Option.some_inj] at h
      subst h
      exact (List.suffix_cons '–' r).trans (List.suffix_cons a ('–' :: r))
    · rw [if_neg hsp] at h
      by_cases ha : a = '–'
      · rw [if_pos ha] at h
        simp only [Option.some_inj] at h
        subst h
        exact List.suffix_cons a ('–' :: r)
      · rw [if_neg ha] at h
        by_cases ha2 : a = '-'
        · rw [if_pos ha2] at h
          simp only [Option.some_inj] at h
          subst h
          exact List.suffix_cons a ('–' :: r)
        · rw [if_neg ha2] at h
          simp at h
  · simp only [Option.some_inj] at h
    subst h
    exact List.suffix_cons _ _
  · simp only [Option.some_inj] at h
    subst h
    exact List.suffix_cons _ _
  · exact ciPrefixRem_suffix _ _ _ h

theorem matchTimeRange_rem_suffix (b : Bool) (cs rem : List Char) (lw : Bool)
    (h : matchTimeRange b cs = some (rem, lw)) : rem <:+ cs := by
  unfold matchTimeRange at h
  cases cs with
  | nil => simp at h
  | cons c rest =>
    dsimp only at h
    cases b with
    | true => simp at h
    | false =>
      by_cases hd : isDigitChar c = true
      · rw [hd] at h
        simp only [Bool.not_true, Bool.false_eq_true, if_false] at h
        cases hsep : timeRangeSep (rest.dropWhile isDigitChar) with
        | none => rw [hsep] at h; simp at h
        | some r2 =>
          rw [hsep] at h
          dsimp only at h
          have h1 : rem <:+ r2 := numUnitTail_suffix timeAlts r2 rem lw (by decide) h
          have h2 : r2 <:+ rest.dropWhile isDigitChar := timeRangeSep_suffix _ _ hsep
          have h3 : rest.dropWhile isDigitChar <:+ rest := List.dropWhile_suffix _
          exact ((h1.trans h2).trans h3).trans (List.suffix_cons c rest)
      · rw [Bool.not_eq_true] at hd
        rw [hd] at h
        simp at h

theorem matchPlainTime_rem_suffix (b : Bool) (cs rem : List Char) (lw : Bool)
    (h : matchPlainTime b cs = some (rem, lw)) : rem <:+ cs := by
  unfold matchPlainTime at h
  cases cs with
  | nil => simp at h
  | cons c rest =>
    dsimp only at h
    cases b with
    | true => simp at h
    | false =>
      by_cases hd : isDigitChar c = true
      · rw [hd] at h
        simp only [Bool.not_true, Bool.false_eq_true, if_false] at h
        cases hds : rest.dropWhile isDigitChar with
        | nil => rw [hds] at h; simp at h
        | cons e r2 =>
          rw [hds] at h
          dsimp only at h
          have hsfx : e :: r2 <:+ rest := hds ▸ List.dropWhile_suffix isDigitChar
          by_cases hsp : isJsSpace e = true
          · rw [if_pos hsp] at h
            exact ((((tryUnitList_rem timeAlts r2 rem lw (by decide) h).1.trans
              (List.suffix_cons e r2)).trans hsfx).trans (List.suffix_cons c rest))
          · rw [if_neg hsp] at h
            exact (((tryUnitList_rem timeAlts (e :: r2) rem lw (by decide) h).1.trans
              hsfx).trans (List.suffix_cons c rest))
      · rw [Bool.not_eq_true] at hd
        rw [hd] at h
        simp at h

theorem matchYouShould_rem_suffix (b : Bool) (cs rem : List Char) (lw : Bool)
    (h : matchYouShould b cs = some (rem, lw)) : rem <:+ cs := by
  unfold matchYouShould at h
  cases b with
  | true => simp at h
  | false =>
    simp only [Bool.false_eq_true, if_false] at h
    cases hc : ciPrefixRem "you ".data cs with
    | none => rw [hc] at h; simp at h
    | some r =>
      rw [hc] at h
      dsimp only at h
      exact (tryUnitList_rem _ r rem lw (by decide) h).1.trans
        (ciPrefixRem_suffix _ cs r hc)

theorem freqCount_suffix (cs r1 : List Char) (h : freqCount cs = some r1) : r1 <:+ cs := by
  unfold freqCount at h
  cases cs with
  | nil => simp at h
  | cons c rest =>
    dsimp only at h
    by_cases hd : isDigitChar c = true
    · rw [if_pos hd] at h
      simp only [Option.some_inj] at h
      subst h
      exact (List.dropWhile_suffix _).trans (List.suffix_cons c rest)
    · rw [if_neg hd] at h
      cases h1 : ciPrefixRem "one".data (c :: rest) with
      | some r =>
        rw [h1] at h
        simp only [Option.some_inj] at h
        subst h
        exact ciPrefixRem_suffix _ _ _ h1
      | none =>
        rw [h1] at h
        cases h2 : ciPrefixRem "two".data (c :: rest) with
        | some r =>
          rw [h2] at h
          simp only [Option.some_inj] at h
          subst h
          exact ciPrefixRem_suffix _ _ _ h2
        | none =>
          rw [h2] at h
          cases h3 : ciPrefixRem "three".data (c :: rest) with
          | some r =>
            rw [h3] at h
            simp only [Option.some_inj] at h
            subst h
            exact ciPrefixRem_suffix _ _ _ h3
          | none =>
            rw [h3] at h
            cases h4 : ciPrefixRem "four".data (c :: rest) with
            | some r =>
              rw [h4] at h
              simp only [Option.some_inj] at h
              subst h
              exact ciPrefixRem_suffix _ _ _ h4
            | none => rw [h4] at h; simp at h

theorem freqSkipSpace_suffix (r1 : List Char) : freqSkipSpace r1 <:+ r1 := by
  unfold freqSkipSpace
  cases r1 with
  | nil => exact List.suffix_refl _
  | cons e r =>
    dsimp only
    by_cases hsp : isJsSpace e = true
    · rw [if_pos hsp]
      exact List.suffix_cons e r
    · rw [if_neg hsp]

theorem freqTimes_suffix (r2 r3 : List Char) (h : freqTimes r2 = some r3) : r3 <:+ r2 := by
  unfold freqTimes at h
  cases h1 : ciPrefixRem "x".data r2 with
  | some r =>
    rw [h1] at h
    simp only [Option.some_inj] at h
    subst h
    exact ciPrefixRem_suffix _ _ _ h1
  | none =>
    rw [h1] at h
    cases h2 : ciPrefixRem "times".data r2 with
    | some r =>
      rw [h2] at h
      simp only [Option.some_inj] at h
      subst h
      exact ciPrefixRem_suffix _ _ _ h2
    | none =>
      rw [h2] at h
      exact ciPrefixRem_suffix _ _ _ h

theorem matchFreq_rem_suffix (b : Bool) (cs rem : List Char) (lw : Bool)
    (h : matchFreq b cs = some (rem, lw)) : rem <:+ cs := by
  unfold matchFreq at h
  cases b with
  | true => simp at h
  | false =>
    simp only [Bool.false_eq_true, if_false] at h
    cases hc : freqCount cs with
    | none => rw [hc] at h; simp at h
    | some r1 =>
      rw [hc] at h
      dsimp only at h
      cases ht : freqTimes (freqSkipSpace r1) with
      | none => rw [ht] at h; simp at h
      | some r3 =>
        rw [ht] at h
        dsimp only at h
        split at h
        · rename_i r4
          have h1 := (tryUnitList_rem _ r4 rem lw (by decide) h).1
          have h2 : r4 <:+ freqSkipSpace r1 :=
            (List.suffix_cons '/' r4).trans (freqTimes_suffix _ _ ht)
          exact ((h1.trans h2).trans (freqSkipSpace_suffix r1)).trans
            (freqCount_suffix cs r1 hc)
        · simp at h

theorem tryVerbList_some : ∀ (vs : List (List Char)) (t3 v rem : List Char),
    tryVerbList vs t3 = some (v, rem) → v ∈ vs ∧ rem <:+ t3 := by
  intro vs
  induction vs with
  | nil => intro t3 v rem h; simp [tryVerbList] at h
  | cons pat ps ih =>
    intro t3 v rem h
    unfold tryVerbList at h
    cases hc : ciPrefixRem pat t3 with
    | none =>
      rw [hc] at h
      obtain ⟨hv, hs⟩ := ih t3 v rem h
      exact ⟨List.mem_cons_of_mem _ hv, hs⟩
    | some rest =>
      rw [hc] at h
      dsimp only at h
      by_cases hb : (isWordChar (pat.getLastD '?') != isWordHead rest) = true
      · rw [if_pos hb] at h
        simp only [Option.some_inj, Prod.mk.injEq] at h
        obtain ⟨h1, h2⟩ := h
        subst h1
        subst h2
        exact ⟨List.mem_cons_self _ _, ciPrefixRem_suffix _ _ _ hc⟩
      · rw [if_neg hb] at h
        obtain ⟨hv, hs⟩ := ih t3 v rem h
        exact ⟨List.mem_cons_of_mem _ hv, hs⟩

theorem matchImperative_some (cs v rem : List Char)
    (h : matchImperative cs = some (v, rem)) : v ∈ imperativeVerbs ∧ rem <:+ cs := by
  unfold matchImperative at h
  dsimp only at h
  have ht1 : cs.dropWhile isJsSpace <:+ cs := List.dropWhile_suffix _
  cases hc : cs.dropWhile isJsSpace with
  | nil =>
    rw [hc] at h
    dsimp only at h
    obtain ⟨hv, hs⟩ := tryVerbList_some _ _ _ _ h
    refine ⟨hv, hs.trans ?_⟩
    rw [← hc] at *
    exact (List.dropWhile_suffix _).trans ht1
  | cons x xs =>
    rw [hc] at h
    dsimp only at h
    by_cases hx : (x = '-' || x = '•') = true
    · rw [if_pos hx] at h
      obtain ⟨hv, hs⟩ := tryVerbList_some _ _ _ _ h
      refine ⟨hv, ?_⟩
      have h1 : xs.dropWhile isJsSpace <:+ xs := List.dropWhile_suffix _
      have h2 : xs <:+ x :: xs := List.suffix_cons x xs
      exact ((hs.trans h1).trans h2).trans (hc ▸ ht1)
    · rw [if_neg hx] at h
      obtain ⟨hv, hs⟩ := tryVerbList_some _ _ _ _ h
      refine ⟨hv, ?_⟩
      have h1 : (x :: xs).dropWhile isJsSpace <:+ x :: xs := List.dropWhile_suffix _
      exact (hs.trans h1).trans (hc ▸ ht1)

theorem imperativeRepl_countDigits (v : List Char) (hv : v ∈ imperativeVerbs) :
    countDigits (imperativeRepl v) = 0 := by
  unfold imperativeRepl
  rw [countDigits_append, countDigits_append]
  have h1 : countDigits "• People sometimes ".data = 0 := by decide
  have h2 : countDigits "… (discuss with your clinician)".data = 0 := by decide
  have h3 : countDigits v = 0 := by
    fin_cases hv <;> decide
  omega

theorem deImperAux_succ (f : Nat) (a : Bool) (c : Char) (rest : List Char) :
    deImperAux (f + 1) a (c :: rest) =
      (if a then
        match matchImperative (c :: rest) with
        | some (verb, rem) => imperativeRepl verb ++ deImperAux f false rem
        | none => c :: deImperAux f false rest
       else if c = '\n' then
        match matchImperative rest with
        | some (verb, rem) => '\n' :: (imperativeRepl verb ++ deImperAux f false rem)
        | none => c :: deImperAux f false rest
       else c :: deImperAux f false rest) := rfl

theorem deImperAux_countDigits : ∀ (f : Nat) (a : Bool) (cs : List Char),
    countDigits (deImperAux f a cs) ≤ countDigits cs := by
  intro f
  induction f with
  | zero => intro a cs; exact le_refl _
  | succ f ih =>
    intro a cs
    cases cs with
    | nil => exact le_refl _
    | cons c rest =>
      rw [deImperAux_succ]
      by_cases ha : a = true
      · rw [if_pos ha]
        cases hm : matchImperative (c :: rest) with
        | some x =>
          obtain ⟨verb, rem⟩ := x
          dsimp only
          rw [countDigits_append]
          obtain ⟨hv, hs⟩ := matchImperative_some _ _ _ hm
          rw [imperativeRepl_countDigits verb hv]
          have h1 := ih false rem
          have h2 := countDigits_suffix_le hs
          omega
        | none =>
          dsimp only
          rw [countDigits_cons, countDigits_cons]
          have := ih false rest
          omega
      · rw [if_neg ha]
        by_cases hn : c = '\n'
        · rw [if_pos hn]
          cases hm : matchImperative rest with
          | some x =>
            obtain ⟨verb, rem⟩ := x
            dsimp only
            rw [countDigits_cons, countDigits_cons, countDigits_append]
            obtain ⟨hv, hs⟩ := matchImperative_some _ _ _ hm
            rw [imperativeRepl_countDigits verb hv]
            have h1 := ih false rem
            have h2 := countDigits_suffix_le (hs.trans (List.suffix_cons c rest))
            have h3 : (if isDigitChar '\n' then 1 else 0) = 0 := by decide
            rw [countDigits_cons] at h2
            omega
          | none =>
            dsimp only
            rw [countDigits_cons, countDigits_cons]
            have := ih false rest
            omega
        · rw [if_neg hn]
          rw [countDigits_cons, countDigits_cons]
          have := ih false rest
          omega

theorem collapseNewlines_succ (f : Nat) (c : Char) (rest : List Char) :
    collapseNewlines (f + 1) (c :: rest) =
      (if c = '\n' then
        if 3 ≤ 1 + (rest.takeWhile (fun d => d = '\n')).length then
          '\n' :: '\n' :: collapseNewlines f (rest.dropWhile (fun d => d = '\n'))
        else c :: collapseNewlines f rest
       else c :: collapseNewlines f rest) := rfl

theorem collapseNewlines_countDigits : ∀ (f : Nat) (cs : List Char),
    countDigits (collapseNewlines f cs) ≤ countDigits cs := by
  intro f
  induction f with
  | zero => intro cs; exact le_refl _
  | succ f ih =>
    intro cs
    cases cs with
    | nil => exact le_refl _
    | cons c rest =>
      rw [collapseNewlines_succ]
      by_cases hn : c = '\n'
      · rw [if_pos hn]
        by_cases h3 : 3 ≤ 1 + (rest.takeWhile (fun d => d = '\n')).length
        · rw [if_pos h3]
          rw [countDigits_cons, countDigits_cons, countDigits_cons]
          have h1 := ih (rest.dropWhile (fun d => d = '\n'))
          have h2 := countDigits_suffix_le
            (List.dropWhile_suffix (l := rest) (p := fun d => d = '\n'))
          have h4 : (if isDigitChar '\n' then 1 else 0) = 0 := by decide
          rw [hn, h4]
          omega
        · rw [if_neg h3]
          rw [countDigits_cons, countDigits_cons]
          have := ih rest
          omega
      · rw [if_neg hn]
        rw [countDigits_cons, countDigits_cons]
        have := ih rest
        omega

theorem jsTrimList_countDigits (l : List Char) :
    countDigits (jsTrimList l) ≤ countDigits l := by
  unfold jsTrimList
  rw [countDigits_reverse]
  have h1 : countDigits ((l.dropWhile isJsSpace).reverse.dropWhile isJsSpace) ≤
      countDigits (l.dropWhile isJsSpace).reverse :=
    countDigits_suffix_le (List.dropWhile_suffix _)
  rw [countDigits_reverse] at h1
  exact h1.trans (countDigits_suffix_le (List.dropWhile_suffix _))

theorem stripDoseAux_eq_gsubAux : ∀ (f : Nat) (b : Bool) (cs : List Char),
    stripDoseAux f b cs = gsubAux matchDosing doseRepl f b cs := by
  intro f
  induction f with
  | zero => intro b cs; rfl
  | succ f ih =>
    intro b cs
    cases cs with
    | nil => rfl
    | cons c rest =>
      rw [stripDoseAux_succ, gsubAux_succ]
      cases hm : matchDosing b (c :: rest) with
      | none => dsimp only; rw [ih]
      | some x => obtain ⟨rem, lw⟩ := x; dsimp only; rw [ih]

theorem stripDoseUnits_countDigits (cs : List Char) :
    countDigits (stripDoseUnits cs) ≤ countDigits cs := by
  unfold stripDoseUnits
  rw [stripDoseAux_eq_gsubAux]
  exact gsubAux_countDigits matchDosing doseRepl (by decide)
    (fun b c rest rem lw hm =>
      ((matchDosing_some b c rest rem lw hm).2.2.1).trans (List.suffix_cons c rest))
    cs.length false cs

theorem sanitizeAdvice_countDigits (s : String) :
    countDigits (sanitizeAdvice s).data ≤ countDigits s.data := by
  unfold sanitizeAdvice
  show countDigits (jsTrimList _) ≤ _
  refine (jsTrimList_countDigits _).trans ?_
  refine (collapseNewlines_countDigits _ _).trans ?_
  refine (gsubAux_countDigits matchYouShould _ (by decide)
    (fun b c rest rem lw hm => matchYouShould_rem_suffix b (c :: rest) rem lw hm) _ _ _).trans ?_
  refine (deImperAux_countDigits _ _ _).trans ?_
  refine (gsubAux_countDigits matchFreq _ (by decide)
    (fun b c rest rem lw hm => matchFreq_rem_suffix b (c :: rest) rem lw hm) _ _ _).trans ?_
  refine (gsubAux_countDigits matchPlainTime _ (by decide)
    (fun b c rest rem lw hm => matchPlainTime_rem_suffix b (c :: rest) rem lw hm) _ _ _).trans ?_
  refine (gsubAux_countDigits matchTimeRange _ (by decide)
    (fun b c rest rem lw hm => matchTimeRange_rem_suffix b (c :: rest) rem lw hm) _ _ _).trans ?_
  exact stripDoseUnits_countDigits _

/-- C10 counterexample: `sanitizeAdvice` leaves "about 50% of people."
unchanged — the '%' dose fails the pattern's trailing word boundary, so the
output still contains a number followed by a dose unit. -/
theorem c10_counterexample :
    sanitizeAdvice "about 50% of people." = "about 50% of people." ∧
    containsClaimDosePattern (sanitizeAdvice "about 50% of people.").data = true := by
  constructor
  · decide
  · decide

/-- C10 (amended): the dosing pass replaces every occurrence of its bounded
source pattern (word boundary, digits, at most one whitespace, dose unit,
trailing word boundary) with "a doctor-directed dose": its output contains no
occurrence of the bounded pattern; the replacement phrase contains no digit;
and no pass of `sanitizeAdvice` reintroduces digits (the digit count never
increases).  Number-plus-unit occurrences failing the trailing boundary (such
as '%' followed by a space, punctuation, or end of text) are outside the
pattern and survive. -/
theorem c10_dosing_sanitation (s : String) :
    hasDosingMatch false (stripDoseUnits s.data) = false ∧
    doseRepl.all (fun c => !isDigitChar c) = true ∧
    countDigits (sanitizeAdvice s).data ≤ countDigits s.data :=
  ⟨stripDoseUnits_no_match s.data, by decide, sanitizeAdvice_countDigits s⟩
